import Mathlib

/-!
Shallow embedding of the sting move-generation engine.

The source consists of two files: `src/hex_grid.rs` (hex-grid storage with
bounded per-cell stacking) and `src/move_generator.rs` (the per-piece move
generators).  Pure functions of the source are translated to Lean functions;
the mutation of a grid is translated to explicit state passing (an operation
returns the new grid).  The `i8` axial coordinates of the source are modelled
as unbounded integers; the fixed 60 x 60 storage bound of the source is kept
through an explicit bounds check (`HexGrid.centralize` returns `none` exactly
where the source's unchecked cast and array indexing would abort the program).

The connectivity and mobility primitives (`pinned`, `outside`,
`slidable_locations`, `get_neighbors`, `is_connected`, `Direction::all`,
`peek`-based occupancy) are used by `src/move_generator.rs` but their
implementation is not among the given source files; they are modelled from
the specification and marked as such in their doc comments.
-/

/-- The eight tile kinds of the source (`PieceType` in `src/hex_grid.rs`). -/
inductive PieceType
  | Queen
  | Grasshopper
  | Spider
  | Beetle
  | Ant
  | Pillbug
  | Ladybug
  | Mosquito
deriving DecidableEq, Repr

/-- The two players (`PieceColor` in `src/hex_grid.rs`). -/
inductive PieceColor
  | Black
  | White
deriving DecidableEq, Repr

/-- A piece is a (kind, color) pair (`Piece` in `src/hex_grid.rs`). -/
structure Piece where
  piece : PieceType
  color : PieceColor
deriving DecidableEq, Repr

/-- The six hex directions (`Direction` in `src/hex_grid.rs`). -/
inductive Direction
  | NW
  | NE
  | E
  | SE
  | SW
  | W
deriving DecidableEq, Repr

/-- Modelled from the spec: `Direction::all()` is used by
`src/move_generator.rs` but not defined in the given sources; the spec fixes
six directions given by fixed coordinate deltas.  The order is irrelevant to
every claim (all results are compared as sets). -/
def Direction.all : List Direction := [.NW, .NE, .E, .SE, .SW, .W]

/-- An axial coordinate (`HexLocation` in `src/hex_grid.rs`).  The source
stores `i8` components; the spec says coordinates are unbounded mathematically
and a concrete storage layer may bound them, so components are integers here
and the storage bound lives in `HexGrid.centralize`. -/
structure HexLocation where
  x : Int
  y : Int
deriving DecidableEq, Repr

/-- `HexLocation::apply` from `src/hex_grid.rs`: one step in a direction. -/
def HexLocation.apply (l : HexLocation) (d : Direction) : HexLocation :=
  match d with
  | .NW => ⟨l.x, l.y - 1⟩
  | .E => ⟨l.x + 1, l.y⟩
  | .W => ⟨l.x - 1, l.y⟩
  | .SE => ⟨l.x, l.y + 1⟩
  | .NE => ⟨l.x + 1, l.y - 1⟩
  | .SW => ⟨l.x - 1, l.y + 1⟩

/-- Counterclockwise neighbor of a direction in the hex cycle
E, NE, NW, W, SW, SE.  Used to name the two flanking cells of an edge. -/
def Direction.ccw : Direction → Direction
  | .E => .NE
  | .NE => .NW
  | .NW => .W
  | .W => .SW
  | .SW => .SE
  | .SE => .E

/-- Clockwise neighbor of a direction in the hex cycle E, NE, NW, W, SW, SE. -/
def Direction.cw : Direction → Direction
  | .E => .SE
  | .SE => .SW
  | .SW => .W
  | .W => .NW
  | .NW => .NE
  | .NE => .E

/-- The opposite direction. -/
def Direction.opp : Direction → Direction
  | .E => .W
  | .W => .E
  | .NE => .SW
  | .SW => .NE
  | .NW => .SE
  | .SE => .NW

/-- `HEX_GRID_SIZE` from `src/hex_grid.rs`. -/
def HEX_GRID_SIZE : Nat := 60

/-- `MAX_HEIGHT` from `src/hex_grid.rs`. -/
def MAX_HEIGHT : Nat := 7

/-- The grid (`HexGrid` in `src/hex_grid.rs`): a cell for every pair of array
indices, each cell a stack of `MAX_HEIGHT` optional pieces.  The source's
fixed array `[[[Option<Piece>; 7]; 60]; 60]` is modelled as a function from
the two indices (row `y` first, as in the source's `grid[y][x][i]`); indices
at or beyond 60 are never produced by `centralize`. -/
structure HexGrid where
  grid : Nat → Nat → List (Option Piece)

/-- `HexGrid::new`: every cell is a stack of 7 empty slots. -/
def HexGrid.new : HexGrid :=
  ⟨fun _ _ => List.replicate MAX_HEIGHT none⟩

/-- `HexGrid::centralize`: translate an axial coordinate to array indices by
adding the center (30, 30).  The source casts to `usize` and indexes the
60 x 60 array without a bounds check, so an out-of-range coordinate aborts
the program (overflow or index out of bounds); that abort is modelled by
`none`. -/
def HexGrid.centralize (location : HexLocation) : Option (Nat × Nat) :=
  if 0 ≤ location.x + 30 ∧ location.x + 30 < 60 ∧
      0 ≤ location.y + 30 ∧ location.y + 30 < 60
  then some ((location.x + 30).toNat, (location.y + 30).toNat)
  else none

/-- Replace one cell of the grid (models an assignment `grid[y][x] = c`). -/
def HexGrid.setCell (g : HexGrid) (x y : Nat) (c : List (Option Piece)) : HexGrid :=
  ⟨fun y2 x2 => if y2 = y ∧ x2 = x then c else g.grid y2 x2⟩

/-- The loop of `HexGrid::add`: put the piece into the first `None` slot,
bottom-up; if no slot is free the stack is returned unchanged. -/
def fillFirstNone (piece : Piece) : List (Option Piece) → List (Option Piece)
  | [] => []
  | none :: rest => some piece :: rest
  | some q :: rest => some q :: fillFirstNone piece rest

/-- The loop of `HexGrid::remove`: pop the lowest occupied slot, returning
the removed piece and the new stack; `(none, unchanged)` if all slots are
empty. -/
def removeLowest : List (Option Piece) → Option Piece × List (Option Piece)
  | [] => (none, [])
  | none :: rest =>
    let r := removeLowest rest
    (r.1, none :: r.2)
  | some q :: rest => (some q, none :: rest)

/-- `HexGrid::add` with the source's abort made explicit: `none` when
`centralize` is out of range (the source would abort). -/
def HexGrid.addChecked (g : HexGrid) (piece : Piece) (location : HexLocation) :
    Option HexGrid :=
  match HexGrid.centralize location with
  | some (x, y) => some (g.setCell x y (fillFirstNone piece (g.grid y x)))
  | none => none

/-- Total wrapper for `HexGrid::add` used by the move generators; theorems
about the generators carry hypotheses (`Inner`) under which every `add`
performed is in range, so the `getD` default is never taken there. -/
def HexGrid.add (g : HexGrid) (piece : Piece) (location : HexLocation) : HexGrid :=
  (g.addChecked piece location).getD g

/-- `HexGrid::remove` with the source's abort made explicit. -/
def HexGrid.removeChecked (g : HexGrid) (location : HexLocation) :
    Option (Option Piece × HexGrid) :=
  match HexGrid.centralize location with
  | some (x, y) =>
    some ((removeLowest (g.grid y x)).1, g.setCell x y (removeLowest (g.grid y x)).2)
  | none => none

/-- Total wrapper for `HexGrid::remove` used by the move generators. -/
def HexGrid.remove (g : HexGrid) (location : HexLocation) : Option Piece × HexGrid :=
  (g.removeChecked location).getD (none, g)

/-- `HexGrid::axial`: the pieces of one cell, bottom-to-top (the source
collects the `Some` entries of the stack in slot order). -/
def HexGrid.axial (g : HexGrid) (x y : Nat) : List Piece :=
  (g.grid y x).filterMap id

/-- `HexGrid::peek` with the source's abort made explicit. -/
def HexGrid.peekChecked (g : HexGrid) (location : HexLocation) : Option (List Piece) :=
  match HexGrid.centralize location with
  | some (x, y) => some (g.axial x y)
  | none => none

/-- Total wrapper for `HexGrid::peek` used by the move generators. -/
def HexGrid.peek (g : HexGrid) (location : HexLocation) : List Piece :=
  (g.peekChecked location).getD []

/-- Modelled from the spec: `neighbors_of(loc)`, the six adjacent cells. -/
def neighbors_of (location : HexLocation) : List HexLocation :=
  Direction.all.map location.apply

/-- A cell is occupied when its stack is non-empty (spec: only cells with a
non-empty stack take part in adjacency and connectivity). -/
def HexGrid.occB (g : HexGrid) (location : HexLocation) : Bool :=
  !(g.peek location).isEmpty

/-- Modelled from the spec: `occupied_neighbors(loc)` / `get_neighbors` (the
name used by `src/move_generator.rs`), the adjacent cells with a non-empty
stack; the implementation is not among the given sources. -/
def HexGrid.get_neighbors (g : HexGrid) (location : HexLocation) : List HexLocation :=
  (neighbors_of location).filter (fun n => g.occB n)

/-- Membership test for the spec's `outside()` set: an unoccupied cell
adjacent to at least one occupied cell. -/
def HexGrid.outsideB (g : HexGrid) (location : HexLocation) : Bool :=
  !g.occB location && !(g.get_neighbors location).isEmpty

/-- Modelled from the spec: `outside()`, every unoccupied cell adjacent to at
least one occupied cell; the implementation is not among the given sources.
Occupied cells have axial components in [-30, 29] (the storage bound), so
every outside cell lies in [-31, 30] and the scan below enumerates them
all (`outside_mem` proves the characterization). -/
def HexGrid.outside (g : HexGrid) : List HexLocation :=
  (List.range 62).flatMap fun (yi : Nat) =>
    (List.range 62).filterMap fun (xi : Nat) =>
      if g.outsideB ⟨(xi : Int) - 31, (yi : Int) - 31⟩
      then some ⟨(xi : Int) - 31, (yi : Int) - 31⟩ else none

/-- Modelled from the spec: `slidable(loc)` / `slidable_locations` (the name
used by `src/move_generator.rs`); the implementation is not among the given
sources.  A neighbor `n` of `loc` qualifies iff `n` is unoccupied and at
least one of the two cells simultaneously adjacent to both `loc` and `n`
(the flanking cells `loc.apply d.ccw` and `loc.apply d.cw` of the shared
edge in direction `d`) is unoccupied. -/
def HexGrid.slidable_locations (g : HexGrid) (location : HexLocation) :
    List HexLocation :=
  Direction.all.filterMap fun d =>
    if g.occB (location.apply d) = false ∧
        (g.occB (location.apply d.ccw) = false ∨ g.occB (location.apply d.cw) = false)
    then some (location.apply d) else none

/-- One edge of the hive's adjacency graph: both endpoints occupied and
adjacent. -/
def Step (g : HexGrid) (a b : HexLocation) : Prop :=
  g.occB a = true ∧ g.occB b = true ∧ b ∈ neighbors_of a

/-- Modelled from the spec: `is_connected()`, true iff all occupied cells
form a single adjacency-connected cluster (vacuously true for the empty or
one-cell board); the implementation is not among the given sources. -/
def HexGrid.IsConnected (g : HexGrid) : Prop :=
  ∀ a b, g.occB a = true → g.occB b = true → Relation.ReflTransGen (Step g) a b

/-- Modelled from the spec: membership in `pinned()`, whose implementation is
not among the given sources: an occupied cell is pinned iff simulating the
removal of its piece leaves a disconnected remainder.  (The spec removes the
top piece while `HexGrid::remove` pops the lowest slot; for the connectivity
test the two agree, since a cell of height at least 2 stays occupied either
way and a cell of height 1 is emptied either way.) -/
def PinnedP (g : HexGrid) (location : HexLocation) : Prop :=
  g.occB location = true ∧ ¬ HexGrid.IsConnected (g.remove location).2

/-- Every cell stack of the grid has exactly `MAX_HEIGHT` slots; the source
array guarantees this by construction, the function model states it. -/
def GridWF (g : HexGrid) : Prop :=
  ∀ y x, (g.grid y x).length = MAX_HEIGHT

/-- All occupied cells keep one cell of margin to the storage boundary, so
every cell a generator touches (neighbors of occupied cells, landing cells)
is in range of the 60 x 60 array. -/
def InnerMargin (g : HexGrid) : Prop :=
  ∀ l : HexLocation, g.occB l = true → -29 ≤ l.x ∧ l.x ≤ 28 ∧ -29 ≤ l.y ∧ l.y ≤ 28

/-- `MoveGeneratorDebugger` from `src/move_generator.rs`: a grid together
with the precomputed `pinned()` and `outside()` sets (the source computes
them in `from_grid` through the grid methods that are not among the given
sources; theorems state their characterizations as hypotheses
`PinnedFaithful` and `OutsideFaithful`). -/
structure MoveGeneratorDebugger where
  grid : HexGrid
  pinned : List HexLocation
  outside : List HexLocation

/-- The stored `pinned` field holds exactly the cells of the spec's
`pinned()` set. -/
def PinnedFaithful (m : MoveGeneratorDebugger) : Prop :=
  ∀ l, l ∈ m.pinned ↔ PinnedP m.grid l

/-- The stored `outside` field holds exactly the cells of the spec's
`outside()` set. -/
def OutsideFaithful (m : MoveGeneratorDebugger) : Prop :=
  ∀ l, l ∈ m.outside ↔ m.grid.outsideB l = true

/-- `MoveGeneratorDebugger::spider_dfs` from `src/move_generator.rs`.  The
source counts `depth` upward and stops at `depth == 3`; here `fuel` counts
the remaining slides, `fuel = 3 - depth`, which is the same recursion with a
structurally decreasing argument.  A path that revisits a cell is pruned
(returns no endpoint); a path that has made exactly 3 distinct slides
contributes its endpoint. -/
def spider_dfs (spiderRemoved : HexGrid) :
    HexLocation → List HexLocation → Nat → List HexLocation
  | location, visited, 0 =>
    if location ∈ visited then [] else [location]
  | location, visited, fuel + 1 =>
    if location ∈ visited then []
    else
      (spiderRemoved.slidable_locations location).flatMap fun l =>
        spider_dfs spiderRemoved l (visited ++ [location]) fuel

/-- `MoveGeneratorDebugger::spider_moves` from `src/move_generator.rs`.
The source `debug_assert`s a single-occupant spider stack and then reads
`stack[0]`; the empty-stack case (on which the source would abort) returns
no moves here and theorems carry the single-occupant hypothesis. -/
def MoveGeneratorDebugger.spider_moves (m : MoveGeneratorDebugger)
    (location : HexLocation) : List HexGrid :=
  let stack := m.grid.peek location
  if location ∈ m.pinned then []
  else
    match stack with
    | [] => []
    | piece :: _ =>
      let spiderRemoved := (m.grid.remove location).2
      let newLocations := spider_dfs spiderRemoved location [] 3
      let deduplicated := newLocations.dedup
      deduplicated.map fun newLocation =>
        ((m.grid.remove location).2).add piece newLocation

/-- The `while` loop of `MoveGeneratorDebugger::grasshopper_moves`: advance
in direction `d` until a cell of the stored `outside` set is reached.  The
source loop has no fuel; fuel 100 is given here, and under the margin
hypothesis `Inner` the loop is proved to stop within the fuel (so the
`none` case is unreachable in the theorems). -/
def grasshopperWalk (outside : List HexLocation) (d : Direction) :
    Nat → HexLocation → Option HexLocation
  | 0, _ => none
  | fuel + 1, s => if s ∈ outside then some s else grasshopperWalk outside d fuel (s.apply d)

/-- The body of the per-direction loop of
`MoveGeneratorDebugger::grasshopper_moves`: `none` when the immediate
neighbor is already outside (nothing to jump over), otherwise the first
cell of the stored `outside` set along the ray. -/
def MoveGeneratorDebugger.grasshopperCandidate (m : MoveGeneratorDebugger)
    (location : HexLocation) (d : Direction) : Option HexLocation :=
  if location.apply d ∈ m.outside then none
  else grasshopperWalk m.outside d 100 (location.apply d)

/-- `MoveGeneratorDebugger::grasshopper_moves` from `src/move_generator.rs`. -/
def MoveGeneratorDebugger.grasshopper_moves (m : MoveGeneratorDebugger)
    (location : HexLocation) : List HexGrid :=
  if location ∈ m.pinned then []
  else
    match m.grid.peek location with
    | [] => []
    | grasshopper :: _ =>
      Direction.all.filterMap fun d =>
        (m.grasshopperCandidate location d).map fun landing =>
          ((m.grid.remove location).2).add grasshopper landing

/-- `MoveGeneratorDebugger::queen_moves` from `src/move_generator.rs`:
one board per neighbor that is slidable from the queen's cell and lies in
the `outside()` set of the queen-removed board. -/
def MoveGeneratorDebugger.queen_moves (m : MoveGeneratorDebugger)
    (location : HexLocation) : List HexGrid :=
  if location ∈ m.pinned then []
  else
    match m.grid.peek location with
    | [] => []
    | queen :: _ =>
      let queenRemoved := (m.grid.remove location).2
      let outsideSet := queenRemoved.outside
      (m.grid.slidable_locations location).filterMap fun sl =>
        if sl ∈ outsideSet then some (((m.grid.remove location).2).add queen sl)
        else none

/-- The inner `dfs` of `MoveGeneratorDebugger::ant_moves`: open-ended
reachability over slidable transitions on the ant-removed board, restricted
to cells in contact with the hive.  The source recursion is bounded by the
finitely many cells a path can reach; the fuel 4096 exceeds that bound
(the reachable cells lie in a 62 x 62 box), and the soundness lemmas hold
for every fuel. -/
def antDfs (g : HexGrid) : Nat → HexLocation → List HexLocation → List HexLocation
  | 0, _, visited => visited
  | fuel + 1, location, visited =>
    if location ∈ visited then visited
    else
      ((g.slidable_locations location).filter fun sl =>
          !(g.get_neighbors sl).isEmpty).foldl
        (fun v sl => antDfs g fuel sl v) (visited ++ [location])

/-- `MoveGeneratorDebugger::ant_moves` from `src/move_generator.rs`.  The
source `unwrap`s the removed piece (aborting when the cell is empty); the
empty case returns no moves here and theorems carry the occupancy
hypothesis. -/
def MoveGeneratorDebugger.ant_moves (m : MoveGeneratorDebugger)
    (location : HexLocation) : List HexGrid :=
  if location ∈ m.pinned then []
  else
    match m.grid.remove location with
    | (none, _) => []
    | (some ant, antRemoved) =>
      let visited := antDfs antRemoved 4096 location []
      let destinations := visited.erase location
      destinations.map fun l => antRemoved.add ant l

/-! ## Derived notions used by the theorems -/

/-- `j` steps from `s` in direction `d` (the ray the grasshopper walks). -/
def rayN (s : HexLocation) (d : Direction) : Nat → HexLocation
  | 0 => s
  | j + 1 => (rayN s d j).apply d

/-- The x-component of a direction's delta. -/
def dirX : Direction → Int
  | .E => 1
  | .W => -1
  | .NE => 1
  | .SW => -1
  | .NW => 0
  | .SE => 0

/-- The y-component of a direction's delta. -/
def dirY : Direction → Int
  | .E => 0
  | .W => 0
  | .NE => -1
  | .SW => 1
  | .NW => -1
  | .SE => 1

/-- The property behind the spider search: `x` is the endpoint of a path of
exactly 3 slides from `loc` on `g` whose four cells are pairwise distinct
(formalizing the spec's "paths of length exactly 3 distinct slides, not
revisiting"). -/
def SpiderPath (g : HexGrid) (loc x : HexLocation) : Prop :=
  ∃ n1, n1 ∈ g.slidable_locations loc ∧ n1 ≠ loc ∧
    ∃ n2, n2 ∈ g.slidable_locations n1 ∧ n2 ≠ loc ∧ n2 ≠ n1 ∧
      x ∈ g.slidable_locations n2 ∧ x ≠ loc ∧ x ≠ n1 ∧ x ≠ n2

/-- Every cell the ant search can insert beyond the origin: unoccupied on the
ant-removed board and in contact with the hive there. -/
def AntOk (g : HexGrid) (x : HexLocation) : Prop :=
  g.occB x = false ∧ g.get_neighbors x ≠ []

/-! ## Concrete boards used by witnesses and counterexamples -/

/-- A white spider piece. -/
def pS : Piece := ⟨PieceType.Spider, PieceColor.White⟩

/-- A black ant piece. -/
def pA : Piece := ⟨PieceType.Ant, PieceColor.Black⟩

/-- The origin cell. -/
def locO : HexLocation := ⟨0, 0⟩

/-- The cell east of the origin. -/
def locE1 : HexLocation := ⟨1, 0⟩

/-- The cell west of the origin. -/
def locW1 : HexLocation := ⟨-1, 0⟩

/-- A two-piece board: one piece at the origin, one east of it. -/
def gTwo : HexGrid := (HexGrid.new.add pS locO).add pA locE1

/-- The generator over `gTwo`; no cell of `gTwo` is pinned and the stored
`outside` list is the scanned outside set (both facts proved below). -/
def mTwo : MoveGeneratorDebugger := ⟨gTwo, [], gTwo.outside⟩

/-- A three-in-a-row board: pieces at west, origin and east; the origin is
pinned. -/
def gThree : HexGrid := ((HexGrid.new.add pA locW1).add pS locO).add pA locE1

/-- The generator over `gThree`; exactly the origin is pinned. -/
def mThree : MoveGeneratorDebugger := ⟨gThree, [locO], gThree.outside⟩

/-- A board with a full stack of `MAX_HEIGHT` pieces at the origin. -/
def gFull : HexGrid :=
  ((((((HexGrid.new.add pS locO).add pA locO).add pS locO).add pA
    locO).add pS locO).add pA locO).add pS locO

/-! ## Geometry of directions and neighbors -/

theorem Direction.mem_all (d : Direction) : d ∈ Direction.all := by
  cases d <;> simp [Direction.all]

theorem mem_neighbors (a b : HexLocation) :
    b ∈ neighbors_of a ↔ ∃ d : Direction, b = a.apply d := by
  simp only [neighbors_of, List.mem_map]
  constructor
  · rintro ⟨d, _, rfl⟩
    exact ⟨d, rfl⟩
  · rintro ⟨d, rfl⟩
    exact ⟨d, Direction.mem_all d, rfl⟩

theorem apply_opp (l : HexLocation) (d : Direction) : (l.apply d).apply d.opp = l := by
  obtain ⟨x, y⟩ := l
  cases d <;> simp [HexLocation.apply, Direction.opp]

theorem apply_ne (l : HexLocation) (d : Direction) : l.apply d ≠ l := by
  obtain ⟨x, y⟩ := l
  cases d <;> simp [HexLocation.apply] <;> omega

theorem neighbors_symm {a b : HexLocation} (h : b ∈ neighbors_of a) :
    a ∈ neighbors_of b := by
  rw [mem_neighbors] at h ⊢
  obtain ⟨d, rfl⟩ := h
  exact ⟨d.opp, (apply_opp a d).symm⟩

theorem not_self_mem_neighbors (a : HexLocation) : a ∉ neighbors_of a := by
  rw [mem_neighbors]
  rintro ⟨d, h⟩
  exact apply_ne a d h.symm

theorem ccw_common (a : HexLocation) (d : Direction) :
    a.apply d.ccw ∈ neighbors_of a ∧ a.apply d.ccw ∈ neighbors_of (a.apply d) := by
  obtain ⟨x, y⟩ := a
  refine ⟨(mem_neighbors _ _).2 ⟨d.ccw, rfl⟩, (mem_neighbors _ _).2 ?_⟩
  cases d
  case E => exact ⟨.NW, by simp [HexLocation.apply, Direction.ccw]⟩
  case NE => exact ⟨.W, by simp [HexLocation.apply, Direction.ccw]⟩
  case NW => exact ⟨.SW, by simp [HexLocation.apply, Direction.ccw]⟩
  case W => exact ⟨.SE, by simp [HexLocation.apply, Direction.ccw]⟩
  case SW => exact ⟨.E, by simp [HexLocation.apply, Direction.ccw]⟩
  case SE => exact ⟨.NE, by simp [HexLocation.apply, Direction.ccw]⟩

theorem cw_common (a : HexLocation) (d : Direction) :
    a.apply d.cw ∈ neighbors_of a ∧ a.apply d.cw ∈ neighbors_of (a.apply d) := by
  obtain ⟨x, y⟩ := a
  refine ⟨(mem_neighbors _ _).2 ⟨d.cw, rfl⟩, (mem_neighbors _ _).2 ?_⟩
  cases d
  case E => exact ⟨.SW, by simp [HexLocation.apply, Direction.cw]⟩
  case SE => exact ⟨.W, by simp [HexLocation.apply, Direction.cw]⟩
  case SW => exact ⟨.NW, by simp [HexLocation.apply, Direction.cw]⟩
  case W => exact ⟨.NE, by simp [HexLocation.apply, Direction.cw]⟩
  case NW => exact ⟨.E, by simp [HexLocation.apply, Direction.cw]⟩
  case NE => exact ⟨.SE, by simp [HexLocation.apply, Direction.cw]⟩

theorem common_classify {a c : HexLocation} {d : Direction}
    (h1 : c ∈ neighbors_of a) (h2 : c ∈ neighbors_of (a.apply d)) :
    c = a.apply d.ccw ∨ c = a.apply d.cw := by
  rw [mem_neighbors] at h1 h2
  obtain ⟨d1, rfl⟩ := h1
  obtain ⟨d2, h2⟩ := h2
  obtain ⟨x, y⟩ := a
  cases d <;> cases d1 <;> cases d2 <;>
    simp only [HexLocation.apply, Direction.ccw, Direction.cw, HexLocation.mk.injEq] at h2 ⊢ <;>
    first
    | omega
    | tauto

/-! ## Stack (cell) lemmas -/

theorem fillFirstNone_length (p : Piece) (c : List (Option Piece)) :
    (fillFirstNone p c).length = c.length := by
  induction c with
  | nil => rfl
  | cons s rest ih =>
    cases s <;> simp [fillFirstNone, ih]

theorem removeLowest_length (c : List (Option Piece)) :
    (removeLowest c).2.length = c.length := by
  induction c with
  | nil => rfl
  | cons s rest ih =>
    cases s <;> simp [removeLowest, ih]

theorem removeLowest_fst (c : List (Option Piece)) :
    (removeLowest c).1 = (c.filterMap id).head? := by
  induction c with
  | nil => rfl
  | cons s rest ih =>
    cases s <;> simp [removeLowest, ih]

theorem removeLowest_snd_peek (c : List (Option Piece)) :
    ((removeLowest c).2).filterMap id = (c.filterMap id).tail := by
  induction c with
  | nil => rfl
  | cons s rest ih =>
    cases s <;> simp [removeLowest, ih]

theorem removeLowest_of_empty {c : List (Option Piece)} (h : c.filterMap id = []) :
    removeLowest c = (none, c) := by
  induction c with
  | nil => rfl
  | cons s rest ih =>
    cases s with
    | none =>
      simp only [List.filterMap_cons, id] at h
      simp [removeLowest, ih h]
    | some q => simp [List.filterMap_cons] at h

theorem fillFirstNone_of_empty {c : List (Option Piece)} (h : c.filterMap id = [])
    (hne : c ≠ []) : (fillFirstNone p c).filterMap id = [p] := by
  cases c with
  | nil => exact absurd rfl hne
  | cons s rest =>
    cases s with
    | none =>
      simp only [List.filterMap_cons, id] at h
      simp [fillFirstNone, h]
    | some q => simp [List.filterMap_cons] at h

theorem fillFirstNone_ne_nil {c : List (Option Piece)} (p : Piece) (hne : c ≠ []) :
    (fillFirstNone p c).filterMap id ≠ [] := by
  cases c with
  | nil => exact absurd rfl hne
  | cons s rest =>
    cases s <;> simp [fillFirstNone]

theorem fillFirstNone_of_full {c : List (Option Piece)}
    (h : ∀ s ∈ c, Option.isSome s = true) (p : Piece) : fillFirstNone p c = c := by
  induction c with
  | nil => rfl
  | cons s rest ih =>
    cases s with
    | none => exact absurd (h none (by simp)) (by simp)
    | some q =>
      simp only [fillFirstNone]
      rw [ih fun s hs => h s (by simp [hs])]

theorem full_of_peek_length {c : List (Option Piece)}
    (h : (c.filterMap id).length = c.length) : ∀ s ∈ c, Option.isSome s = true := by
  simpa using h

/-! ## Grid operation lemmas -/

theorem centralize_eq_some {l : HexLocation} {p : Nat × Nat}
    (h : HexGrid.centralize l = some p) :
    (-30 ≤ l.x ∧ l.x ≤ 29 ∧ -30 ≤ l.y ∧ l.y ≤ 29) ∧
      p = ((l.x + 30).toNat, (l.y + 30).toNat) := by
  unfold HexGrid.centralize at h
  split at h
  next hcond => exact ⟨by omega, by simp_all⟩
  next => simp at h

theorem centralize_of_bounds {l : HexLocation} (hx1 : -30 ≤ l.x) (hx2 : l.x ≤ 29)
    (hy1 : -30 ≤ l.y) (hy2 : l.y ≤ 29) :
    HexGrid.centralize l = some ((l.x + 30).toNat, (l.y + 30).toNat) := by
  unfold HexGrid.centralize
  rw [if_pos]
  omega

theorem centralize_inj {l l2 : HexLocation} {p : Nat × Nat}
    (h : HexGrid.centralize l = some p) (h2 : HexGrid.centralize l2 = some p) :
    l = l2 := by
  obtain ⟨hb, rfl⟩ := centralize_eq_some h
  obtain ⟨hb2, heq⟩ := centralize_eq_some h2
  obtain ⟨x, y⟩ := l
  obtain ⟨x2, y2⟩ := l2
  simp only [Prod.ext_iff] at heq
  simp only [HexLocation.mk.injEq]
  simp only at hb hb2 heq
  omega

theorem peek_out_of_range {g : HexGrid} {l : HexLocation}
    (h : HexGrid.centralize l = none) : g.peek l = [] := by
  simp [HexGrid.peek, HexGrid.peekChecked, h]

theorem peek_eq_axial {g : HexGrid} {l : HexLocation} {x y : Nat}
    (h : HexGrid.centralize l = some (x, y)) :
    g.peek l = (g.grid y x).filterMap id := by
  simp [HexGrid.peek, HexGrid.peekChecked, HexGrid.axial, h]

theorem add_out_of_range {g : HexGrid} {p : Piece} {l : HexLocation}
    (h : HexGrid.centralize l = none) : g.add p l = g := by
  simp [HexGrid.add, HexGrid.addChecked, h]

theorem add_eq {g : HexGrid} {p : Piece} {l : HexLocation} {x y : Nat}
    (h : HexGrid.centralize l = some (x, y)) :
    g.add p l = g.setCell x y (fillFirstNone p (g.grid y x)) := by
  simp [HexGrid.add, HexGrid.addChecked, h]

theorem remove_out_of_range {g : HexGrid} {l : HexLocation}
    (h : HexGrid.centralize l = none) : g.remove l = (none, g) := by
  simp [HexGrid.remove, HexGrid.removeChecked, h]

theorem remove_eq {g : HexGrid} {l : HexLocation} {x y : Nat}
    (h : HexGrid.centralize l = some (x, y)) :
    g.remove l =
      ((removeLowest (g.grid y x)).1, g.setCell x y (removeLowest (g.grid y x)).2) := by
  simp [HexGrid.remove, HexGrid.removeChecked, h]

theorem setCell_read_self (g : HexGrid) (x y : Nat) (c : List (Option Piece)) :
    (g.setCell x y c).grid y x = c := by
  simp [HexGrid.setCell]

theorem setCell_read_other {g : HexGrid} {x y x2 y2 : Nat} {c : List (Option Piece)}
    (hne : ¬(y2 = y ∧ x2 = x)) : (g.setCell x y c).grid y2 x2 = g.grid y2 x2 := by
  simp [HexGrid.setCell, hne]

theorem setCell_eta (g : HexGrid) (x y : Nat) :
    g.setCell x y (g.grid y x) = g := by
  obtain ⟨f⟩ := g
  simp only [HexGrid.setCell, HexGrid.mk.injEq]
  funext y2 x2
  split
  next h => rw [h.1, h.2]
  next => rfl

theorem peek_add_other {g : HexGrid} {p : Piece} {d l : HexLocation} (hne : l ≠ d) :
    (g.add p d).peek l = g.peek l := by
  cases hd : HexGrid.centralize d with
  | none => rw [add_out_of_range hd]
  | some v =>
    obtain ⟨x, y⟩ := v
    rw [add_eq hd]
    cases hl : HexGrid.centralize l with
    | none => rw [peek_out_of_range hl, peek_out_of_range hl]
    | some v2 =>
      obtain ⟨x2, y2⟩ := v2
      rw [peek_eq_axial hl, peek_eq_axial hl, setCell_read_other]
      rintro ⟨rfl, rfl⟩
      exact hne (centralize_inj hl hd)

theorem peek_add_self {g : HexGrid} (hwf : GridWF g) {p : Piece} {d : HexLocation}
    {x y : Nat} (hb : HexGrid.centralize d = some (x, y)) (hempty : g.peek d = []) :
    (g.add p d).peek d = [p] := by
  rw [add_eq hb, peek_eq_axial hb, setCell_read_self]
  refine fillFirstNone_of_empty ?_ ?_
  · rw [peek_eq_axial hb] at hempty
    exact hempty
  · intro hc
    have hlen := hwf y x
    rw [hc] at hlen
    simp [MAX_HEIGHT] at hlen

theorem occB_out_of_range {g : HexGrid} {l : HexLocation}
    (h : HexGrid.centralize l = none) : g.occB l = false := by
  simp [HexGrid.occB, peek_out_of_range h]

theorem occB_bounds {g : HexGrid} {l : HexLocation} (h : g.occB l = true) :
    HexGrid.centralize l = some ((l.x + 30).toNat, (l.y + 30).toNat) ∧
      -30 ≤ l.x ∧ l.x ≤ 29 ∧ -30 ≤ l.y ∧ l.y ≤ 29 := by
  cases hc : HexGrid.centralize l with
  | none => rw [occB_out_of_range hc] at h; cases h
  | some v =>
    obtain ⟨hb, rfl⟩ := centralize_eq_some hc
    exact ⟨rfl, hb⟩

theorem occB_add {g : HexGrid} (hwf : GridWF g) {p : Piece} {d : HexLocation}
    {x y : Nat} (hb : HexGrid.centralize d = some (x, y)) (l : HexLocation) :
    (g.add p d).occB l = (g.occB l || decide (l = d)) := by
  by_cases hl : l = d
  · subst hl
    have h1 : (g.add p l).occB l = true := by
      rw [HexGrid.occB, add_eq hb, peek_eq_axial hb, setCell_read_self]
      have hne : g.grid y x ≠ [] := by
        intro hc
        have hlen := hwf y x
        rw [hc] at hlen
        simp [MAX_HEIGHT] at hlen
      have := fillFirstNone_ne_nil p hne
      simp only [Bool.not_eq_true']
      rwa [List.isEmpty_eq_false]
    rw [h1]
    simp
  · have h2 : decide (l = d) = false := by simp [hl]
    rw [h2, Bool.or_false, HexGrid.occB, HexGrid.occB, peek_add_other hl]

theorem remove_fst (g : HexGrid) (loc : HexLocation) :
    (g.remove loc).1 = (g.peek loc).head? := by
  cases hc : HexGrid.centralize loc with
  | none => rw [remove_out_of_range hc, peek_out_of_range hc]; rfl
  | some v =>
    obtain ⟨x, y⟩ := v
    rw [remove_eq hc, peek_eq_axial hc]
    exact removeLowest_fst _

theorem peek_remove_self (g : HexGrid) (loc : HexLocation) :
    (g.remove loc).2.peek loc = (g.peek loc).tail := by
  cases hc : HexGrid.centralize loc with
  | none => rw [remove_out_of_range hc, peek_out_of_range hc]; rfl
  | some v =>
    obtain ⟨x, y⟩ := v
    rw [remove_eq hc]
    show (_ : HexGrid).peek loc = _
    rw [peek_eq_axial hc, peek_eq_axial hc, setCell_read_self]
    exact removeLowest_snd_peek _

theorem peek_remove_other {g : HexGrid} {loc l : HexLocation} (hne : l ≠ loc) :
    (g.remove loc).2.peek l = g.peek l := by
  cases hc : HexGrid.centralize loc with
  | none => rw [remove_out_of_range hc]
  | some v =>
    obtain ⟨x, y⟩ := v
    rw [remove_eq hc]
    cases hl : HexGrid.centralize l with
    | none =>
      show (_ : HexGrid).peek l = _
      rw [peek_out_of_range hl, peek_out_of_range hl]
    | some v2 =>
      obtain ⟨x2, y2⟩ := v2
      show (_ : HexGrid).peek l = _
      rw [peek_eq_axial hl, peek_eq_axial hl, setCell_read_other]
      rintro ⟨rfl, rfl⟩
      exact hne (centralize_inj hl hc)

theorem occB_remove_other {g : HexGrid} {loc l : HexLocation} (hne : l ≠ loc) :
    (g.remove loc).2.occB l = g.occB l := by
  rw [HexGrid.occB, HexGrid.occB, peek_remove_other hne]

theorem occB_remove_single {g : HexGrid} {loc : HexLocation} {q : Piece}
    (hq : g.peek loc = [q]) (l : HexLocation) :
    (g.remove loc).2.occB l = (g.occB l && !(decide (l = loc))) := by
  by_cases hl : l = loc
  · subst hl
    have h1 : (g.remove l).2.occB l = false := by
      rw [HexGrid.occB, peek_remove_self, hq]
      rfl
    rw [h1]
    simp
  · rw [occB_remove_other hl]
    have h2 : decide (l = loc) = false := by simp [hl]
    rw [h2]
    simp

theorem occB_new (l : HexLocation) : HexGrid.new.occB l = false := by
  cases hc : HexGrid.centralize l with
  | none => exact occB_out_of_range hc
  | some v =>
    obtain ⟨x, y⟩ := v
    rw [HexGrid.occB, peek_eq_axial hc]
    simp [HexGrid.new, List.filterMap_replicate]

theorem GridWF.new : GridWF HexGrid.new := by
  intro y x
  simp [HexGrid.new, MAX_HEIGHT]

theorem GridWF.add {g : HexGrid} (hwf : GridWF g) (p : Piece) (d : HexLocation) :
    GridWF (g.add p d) := by
  cases hd : HexGrid.centralize d with
  | none => rw [add_out_of_range hd]; exact hwf
  | some v =>
    obtain ⟨x, y⟩ := v
    rw [add_eq hd]
    intro y2 x2
    by_cases h : y2 = y ∧ x2 = x
    · obtain ⟨rfl, rfl⟩ := h
      rw [setCell_read_self, fillFirstNone_length]
      exact hwf y2 x2
    · rw [setCell_read_other h]
      exact hwf y2 x2

theorem GridWF.remove {g : HexGrid} (hwf : GridWF g) (loc : HexLocation) :
    GridWF (g.remove loc).2 := by
  cases hc : HexGrid.centralize loc with
  | none => rw [remove_out_of_range hc]; exact hwf
  | some v =>
    obtain ⟨x, y⟩ := v
    rw [remove_eq hc]
    intro y2 x2
    by_cases h : y2 = y ∧ x2 = x
    · obtain ⟨rfl, rfl⟩ := h
      show ((_ : HexGrid).grid y2 x2).length = _
      rw [setCell_read_self, removeLowest_length]
      exact hwf y2 x2
    · show ((_ : HexGrid).grid y2 x2).length = _
      rw [setCell_read_other h]
      exact hwf y2 x2

/-! ## Connectivity lemmas -/

theorem step_symm {g : HexGrid} {a b : HexLocation} (h : Step g a b) : Step g b a :=
  ⟨h.2.1, h.1, neighbors_symm h.2.2⟩

theorem step_mono {g g2 : HexGrid}
    (hocc : ∀ l, g.occB l = true → g2.occB l = true) {a b : HexLocation}
    (h : Step g a b) : Step g2 a b :=
  ⟨hocc _ h.1, hocc _ h.2.1, h.2.2⟩

theorem rtg_mono {g g2 : HexGrid}
    (hocc : ∀ l, g.occB l = true → g2.occB l = true) {a b : HexLocation}
    (h : Relation.ReflTransGen (Step g) a b) :
    Relation.ReflTransGen (Step g2) a b :=
  Relation.ReflTransGen.mono (fun _ _ hs => step_mono hocc hs) h

theorem rtg_of_no_step {g : HexGrid} {a c : HexLocation}
    (hno : ∀ b, ¬ Step g a b) (h : Relation.ReflTransGen (Step g) a c) : c = a := by
  rcases Relation.ReflTransGen.cases_head h with rfl | ⟨b, hb, _⟩
  · rfl
  · exact absurd hb (hno b)

theorem no_step_of_no_occ_neighbors {g : HexGrid} {a : HexLocation}
    (h : ∀ b ∈ neighbors_of a, g.occB b = false) : ∀ b, ¬ Step g a b := by
  rintro b ⟨_, hb, hmem⟩
  rw [h b hmem] at hb
  cases hb

theorem isConnected_add_adjacent {g2 g3 : HexGrid} {d : HexLocation}
    (hconn : g2.IsConnected)
    (hchar : ∀ l, g3.occB l = true ↔ (g2.occB l = true ∨ l = d))
    (hadj : ∃ e, e ∈ neighbors_of d ∧ g2.occB e = true) :
    g3.IsConnected := by
  obtain ⟨e, he_mem, he_occ⟩ := hadj
  have hmono : ∀ l, g2.occB l = true → g3.occB l = true := fun l h => (hchar l).2 (Or.inl h)
  have hd3 : g3.occB d = true := (hchar d).2 (Or.inr rfl)
  have hstep_de : Step g3 d e := ⟨hd3, hmono e he_occ, he_mem⟩
  intro a b ha hb
  rcases (hchar a).1 ha with ha2 | rfl
  · rcases (hchar b).1 hb with hb2 | rfl
    · exact rtg_mono hmono (hconn a b ha2 hb2)
    · exact (rtg_mono hmono (hconn a e ha2 he_occ)).tail (step_symm hstep_de)
  · rcases (hchar b).1 hb with hb2 | rfl
    · exact (Relation.ReflTransGen.single hstep_de).trans
        (rtg_mono hmono (hconn e b he_occ hb2))
    · exact Relation.ReflTransGen.refl

theorem isConnected_one {g : HexGrid} {c : HexLocation}
    (h : ∀ l, g.occB l = true → l = c) : g.IsConnected := by
  intro a b ha hb
  rw [h a ha, h b hb]

theorem isConnected_two {g : HexGrid} {a b : HexLocation}
    (hchar : ∀ l, g.occB l = true → (l = a ∨ l = b))
    (ha : g.occB a = true) (hb : g.occB b = true)
    (hab : b ∈ neighbors_of a) : g.IsConnected := by
  have sab : Relation.ReflTransGen (Step g) a b :=
    Relation.ReflTransGen.single ⟨ha, hb, hab⟩
  have sba : Relation.ReflTransGen (Step g) b a :=
    Relation.ReflTransGen.single (step_symm ⟨ha, hb, hab⟩)
  intro x y hx hy
  rcases hchar x hx with rfl | rfl <;> rcases hchar y hy with rfl | rfl
  · exact Relation.ReflTransGen.refl
  · exact sab
  · exact sba
  · exact Relation.ReflTransGen.refl

theorem isConnected_three {g : HexGrid} {a b c : HexLocation}
    (hchar : ∀ l, g.occB l = true → (l = a ∨ l = b ∨ l = c))
    (ha : g.occB a = true) (hb : g.occB b = true) (hc : g.occB c = true)
    (hab : b ∈ neighbors_of a) (hbc : c ∈ neighbors_of b) : g.IsConnected := by
  have sab : Step g a b := ⟨ha, hb, hab⟩
  have sbc : Step g b c := ⟨hb, hc, hbc⟩
  have toB : ∀ x, g.occB x = true → Relation.ReflTransGen (Step g) x b := by
    intro x hx
    rcases hchar x hx with rfl | rfl | rfl
    · exact Relation.ReflTransGen.single sab
    · exact Relation.ReflTransGen.refl
    · exact Relation.ReflTransGen.single (step_symm sbc)
  have fromB : ∀ x, g.occB x = true → Relation.ReflTransGen (Step g) b x := by
    intro x hx
    rcases hchar x hx with rfl | rfl | rfl
    · exact Relation.ReflTransGen.single (step_symm sab)
    · exact Relation.ReflTransGen.refl
    · exact Relation.ReflTransGen.single sbc
  intro x y hx hy
  exact (toB x hx).trans (fromB y hy)

/-! ## The outside set -/

theorem outsideB_iff {g : HexGrid} {l : HexLocation} :
    g.outsideB l = true ↔
      g.occB l = false ∧ ∃ e ∈ neighbors_of l, g.occB e = true := by
  rw [HexGrid.outsideB]
  simp only [Bool.and_eq_true, Bool.not_eq_true', List.isEmpty_eq_false,
    Bool.not_eq_true]
  constructor
  · rintro ⟨h1, h2⟩
    refine ⟨h1, ?_⟩
    rcases List.exists_mem_of_ne_nil _ h2 with ⟨e, he⟩
    rw [HexGrid.get_neighbors, List.mem_filter] at he
    exact ⟨e, he.1, he.2⟩
  · rintro ⟨h1, e, hmem, hocc⟩
    refine ⟨h1, ?_⟩
    intro hnil
    have : e ∈ g.get_neighbors l := by
      rw [HexGrid.get_neighbors, List.mem_filter]
      exact ⟨hmem, hocc⟩
    rw [hnil] at this
    cases this

theorem neighbor_coord_bound {l : HexLocation} {d : Direction} :
    (l.apply d).x - l.x ≤ 1 ∧ l.x - (l.apply d).x ≤ 1 ∧
      (l.apply d).y - l.y ≤ 1 ∧ l.y - (l.apply d).y ≤ 1 := by
  obtain ⟨x, y⟩ := l
  cases d <;> simp [HexLocation.apply] <;> omega

theorem outside_mem (g : HexGrid) (l : HexLocation) :
    l ∈ g.outside ↔ g.outsideB l = true := by
  constructor
  · intro h
    rw [HexGrid.outside, List.mem_flatMap] at h
    obtain ⟨yi, _, hmem⟩ := h
    rw [List.mem_filterMap] at hmem
    obtain ⟨xi, _, hcond⟩ := hmem
    split at hcond
    next hout =>
      rw [Option.some.injEq] at hcond
      rwa [← hcond]
    next => cases hcond
  · intro h
    have hb : g.occB l = false ∧ ∃ e ∈ neighbors_of l, g.occB e = true :=
      outsideB_iff.1 h
    obtain ⟨_, e, hmem, hocc⟩ := hb
    have he := (occB_bounds hocc).2
    have hl : l ∈ neighbors_of e := neighbors_symm hmem
    rw [mem_neighbors] at hl
    obtain ⟨d, rfl⟩ := hl
    have hcoord := @neighbor_coord_bound e d
    obtain ⟨he1, he2, he3, he4⟩ := he
    obtain ⟨hc1, hc2, hc3, hc4⟩ := hcoord
    have hx : ((((e.apply d).x + 31).toNat : Int) - 31) = (e.apply d).x := by omega
    have hy : ((((e.apply d).y + 31).toNat : Int) - 31) = (e.apply d).y := by omega
    have hloc : (⟨((((e.apply d).x + 31).toNat : Nat) : Int) - 31,
        ((((e.apply d).y + 31).toNat : Nat) : Int) - 31⟩ : HexLocation) = e.apply d := by
      rw [hx, hy]
    rw [HexGrid.outside, List.mem_flatMap]
    refine ⟨((e.apply d).y + 31).toNat, by rw [List.mem_range]; omega, ?_⟩
    rw [List.mem_filterMap]
    refine ⟨((e.apply d).x + 31).toNat, by rw [List.mem_range]; omega, ?_⟩
    rw [hloc, if_pos h]

/-! ## Slidable lemmas -/

theorem mem_slidable {g : HexGrid} {loc b : HexLocation} :
    b ∈ g.slidable_locations loc ↔
      ∃ d : Direction, b = loc.apply d ∧ g.occB b = false ∧
        (g.occB (loc.apply d.ccw) = false ∨ g.occB (loc.apply d.cw) = false) := by
  rw [HexGrid.slidable_locations, List.mem_filterMap]
  constructor
  · rintro ⟨d, _, hcond⟩
    split at hcond
    next hc =>
      rw [Option.some.injEq] at hcond
      subst hcond
      exact ⟨d, rfl, hc.1, hc.2⟩
    next => cases hcond
  · rintro ⟨d, rfl, h1, h2⟩
    exact ⟨d, Direction.mem_all d, by rw [if_pos ⟨h1, h2⟩]⟩

theorem slidable_unoccupied {g : HexGrid} {loc b : HexLocation}
    (h : b ∈ g.slidable_locations loc) : g.occB b = false := by
  obtain ⟨d, rfl, h1, _⟩ := mem_slidable.1 h
  exact h1

theorem slidable_is_neighbor {g : HexGrid} {loc b : HexLocation}
    (h : b ∈ g.slidable_locations loc) : b ∈ neighbors_of loc := by
  obtain ⟨d, rfl, _, _⟩ := mem_slidable.1 h
  exact (mem_neighbors _ _).2 ⟨d, rfl⟩

theorem slidable_ne {g : HexGrid} {loc b : HexLocation}
    (h : b ∈ g.slidable_locations loc) : b ≠ loc := by
  obtain ⟨d, rfl, _, _⟩ := mem_slidable.1 h
  exact apply_ne loc d

/-- Removing the piece at `loc` does not change which cells are slidable
from `loc` itself: the slide test inspects only the six neighbors and
their flanks, all distinct from `loc`. -/
theorem slidable_remove_self (g : HexGrid) (loc : HexLocation) :
    (g.remove loc).2.slidable_locations loc = g.slidable_locations loc := by
  rw [HexGrid.slidable_locations, HexGrid.slidable_locations]
  apply List.filterMap_congr
  intro d _
  rw [occB_remove_other (apply_ne loc d),
    occB_remove_other (apply_ne loc d.ccw),
    occB_remove_other (apply_ne loc d.cw)]

/-! ## Spider search lemmas -/

theorem spider_dfs_zero (g : HexGrid) (l : HexLocation) (v : List HexLocation) :
    spider_dfs g l v 0 = if l ∈ v then [] else [l] := by
  rw [spider_dfs]

theorem spider_dfs_succ (g : HexGrid) (l : HexLocation) (v : List HexLocation)
    (fuel : Nat) :
    spider_dfs g l v (fuel + 1) =
      if l ∈ v then []
      else (g.slidable_locations l).flatMap fun n => spider_dfs g n (v ++ [l]) fuel := by
  rw [spider_dfs]


theorem spider_dfs_mem_0 {g : HexGrid} {v : List HexLocation} {n x : HexLocation} :
    x ∈ spider_dfs g n v 0 ↔ n ∉ v ∧ x = n := by
  rw [spider_dfs_zero]
  split
  next h => simp [h]
  next h => simp [h]

theorem spider_dfs_mem_succ {g : HexGrid} {v : List HexLocation} {n x : HexLocation}
    {fuel : Nat} :
    x ∈ spider_dfs g n v (fuel + 1) ↔
      n ∉ v ∧ ∃ n2 ∈ g.slidable_locations n, x ∈ spider_dfs g n2 (v ++ [n]) fuel := by
  rw [spider_dfs_succ]
  split
  next h => simp [h]
  next h => simp [h, List.mem_flatMap]

theorem spider_dfs_mem_3 {g : HexGrid} {v : List HexLocation} {n x : HexLocation} :
    x ∈ spider_dfs g n v 3 ↔
      n ∉ v ∧ ∃ n2 ∈ g.slidable_locations n, x ∈ spider_dfs g n2 (v ++ [n]) 2 :=
  spider_dfs_mem_succ

theorem spider_dfs_mem_2 {g : HexGrid} {v : List HexLocation} {n x : HexLocation} :
    x ∈ spider_dfs g n v 2 ↔
      n ∉ v ∧ ∃ n2 ∈ g.slidable_locations n, x ∈ spider_dfs g n2 (v ++ [n]) 1 :=
  spider_dfs_mem_succ

theorem spider_dfs_mem_1 {g : HexGrid} {v : List HexLocation} {n x : HexLocation} :
    x ∈ spider_dfs g n v 1 ↔
      n ∉ v ∧ ∃ n2 ∈ g.slidable_locations n, x ∈ spider_dfs g n2 (v ++ [n]) 0 :=
  spider_dfs_mem_succ

theorem spider_dfs_mem (g : HexGrid) (loc x : HexLocation) :
    x ∈ spider_dfs g loc [] 3 ↔ SpiderPath g loc x := by
  rw [SpiderPath]
  simp only [spider_dfs_mem_3, spider_dfs_mem_2, spider_dfs_mem_1, spider_dfs_mem_0,
    List.not_mem_nil, List.nil_append, List.singleton_append, List.cons_append,
    List.mem_cons, List.mem_singleton, not_or, not_false_iff, not_false_eq_true,
    and_true, true_and, ne_eq]
  constructor
  · rintro ⟨n1, hs1, hn1, n2, hs2, ⟨hn2a, hn2b⟩, n3, hs3, ⟨hxa, hxb, hxc⟩, rfl⟩
    exact ⟨n1, hs1, hn1, n2, hs2, hn2a, hn2b, hs3, hxa, hxb, hxc⟩
  · rintro ⟨n1, hs1, hn1, n2, hs2, hn2a, hn2b, hs3, hxa, hxb, hxc⟩
    exact ⟨n1, hs1, hn1, n2, hs2, ⟨hn2a, hn2b⟩, x, hs3, ⟨hxa, hxb, hxc⟩, rfl⟩

/-! ## Ant search lemmas -/

theorem antDfs_zero (g : HexGrid) (loc : HexLocation) (v : List HexLocation) :
    antDfs g 0 loc v = v := by
  rw [antDfs]

theorem antDfs_succ (g : HexGrid) (loc : HexLocation) (v : List HexLocation)
    (fuel : Nat) :
    antDfs g (fuel + 1) loc v =
      if loc ∈ v then v
      else ((g.slidable_locations loc).filter fun sl =>
          !(g.get_neighbors sl).isEmpty).foldl
        (fun v sl => antDfs g fuel sl v) (v ++ [loc]) := by
  rw [antDfs]

theorem antDfs_mono (g : HexGrid) :
    ∀ (fuel : Nat) (loc : HexLocation) (v : List HexLocation),
      ∀ x ∈ v, x ∈ antDfs g fuel loc v := by
  intro fuel
  induction fuel with
  | zero =>
    intro loc v x hx
    rw [antDfs_zero]
    exact hx
  | succ fuel ih =>
    intro loc v x hx
    rw [antDfs_succ]
    split
    next => exact hx
    next =>
      have hgen : ∀ (L : List HexLocation) (v0 : List HexLocation), x ∈ v0 →
          x ∈ L.foldl (fun v sl => antDfs g fuel sl v) v0 := by
        intro L
        induction L with
        | nil =>
          intro v0 h
          simpa using h
        | cons a L ihL =>
          intro v0 h
          rw [List.foldl_cons]
          exact ihL _ (ih a v0 x h)
      exact hgen _ _ (by simp [hx])

theorem antDfs_foldl_mono (g : HexGrid) (fuel : Nat) :
    ∀ (L : List HexLocation) (v0 : List HexLocation) (x), x ∈ v0 →
      x ∈ L.foldl (fun v sl => antDfs g fuel sl v) v0 := by
  intro L
  induction L with
  | nil =>
    intro v0 x h
    simpa using h
  | cons a L ihL =>
    intro v0 x h
    rw [List.foldl_cons]
    exact ihL _ x (antDfs_mono g fuel a v0 x h)

theorem antDfs_self_mem (g : HexGrid) {fuel : Nat} (hf : 1 ≤ fuel) (n : HexLocation)
    (v : List HexLocation) : n ∈ antDfs g fuel n v := by
  obtain ⟨fuel, rfl⟩ : ∃ f, fuel = f + 1 := ⟨fuel - 1, by omega⟩
  rw [antDfs_succ]
  split
  next h => exact h
  next h => exact antDfs_foldl_mono g fuel _ _ n (by simp)


theorem antDfs_sound (g : HexGrid) :
    ∀ (fuel : Nat) (loc : HexLocation) (v : List HexLocation) (x),
      x ∈ antDfs g fuel loc v → x ∈ v ∨ x = loc ∨ AntOk g x := by
  intro fuel
  induction fuel with
  | zero =>
    intro loc v x hx
    rw [antDfs_zero] at hx
    exact Or.inl hx
  | succ fuel ih =>
    intro loc v x hx
    rw [antDfs_succ] at hx
    split at hx
    next => exact Or.inl hx
    next =>
      have hall : ∀ a ∈ (g.slidable_locations loc).filter
          (fun sl => !(g.get_neighbors sl).isEmpty), AntOk g a := by
        intro a ha
        rw [List.mem_filter] at ha
        refine ⟨slidable_unoccupied ha.1, ?_⟩
        have h2 := ha.2
        rw [Bool.not_eq_true'] at h2
        rw [← List.isEmpty_eq_false]
        exact h2
      have hgen : ∀ (L : List HexLocation), (∀ a ∈ L, AntOk g a) →
          ∀ (v0 : List HexLocation),
          x ∈ L.foldl (fun v sl => antDfs g fuel sl v) v0 → x ∈ v0 ∨ AntOk g x := by
        intro L
        induction L with
        | nil =>
          intro _ v0 h
          rw [List.foldl_nil] at h
          exact Or.inl h
        | cons a L ihL =>
          intro hL v0 h
          rw [List.foldl_cons] at h
          rcases ihL (fun b hb => hL b (by simp [hb])) _ h with h2 | h2
          · rcases ih a v0 x h2 with h3 | h3 | h3
            · exact Or.inl h3
            · subst h3
              exact Or.inr (hL x (by simp))
            · exact Or.inr h3
          · exact Or.inr h2
      rcases hgen _ hall _ hx with h2 | h2
      · rcases List.mem_append.1 h2 with h3 | h3
        · exact Or.inl h3
        · exact Or.inr (Or.inl (List.mem_singleton.1 h3))
      · exact Or.inr (Or.inr h2)

theorem antDfs_nodup (g : HexGrid) :
    ∀ (fuel : Nat) (loc : HexLocation) (v : List HexLocation),
      v.Nodup → (antDfs g fuel loc v).Nodup := by
  intro fuel
  induction fuel with
  | zero =>
    intro loc v h
    rwa [antDfs_zero]
  | succ fuel ih =>
    intro loc v h
    rw [antDfs_succ]
    split
    next => exact h
    next hmem =>
      have hgen : ∀ (L : List HexLocation) (v0 : List HexLocation), v0.Nodup →
          (L.foldl (fun v sl => antDfs g fuel sl v) v0).Nodup := by
        intro L
        induction L with
        | nil =>
          intro v0 h0
          simpa using h0
        | cons a L ihL =>
          intro v0 h0
          rw [List.foldl_cons]
          exact ihL _ (ih a v0 h0)
      refine hgen _ _ ?_
      rw [List.nodup_append]
      refine ⟨h, List.nodup_singleton loc, ?_⟩
      intro a ha hb
      rw [List.mem_singleton] at hb
      subst hb
      exact hmem ha

theorem antDfs_foldl_each (g : HexGrid) {fuel : Nat} (hf : 1 ≤ fuel) :
    ∀ (L : List HexLocation) (v0 : List HexLocation) (n), n ∈ L →
      n ∈ L.foldl (fun v sl => antDfs g fuel sl v) v0 := by
  intro L
  induction L with
  | nil =>
    intro v0 n h
    cases h
  | cons a L ihL =>
    intro v0 n h
    rw [List.foldl_cons]
    rcases List.mem_cons.1 h with rfl | h2
    · exact antDfs_foldl_mono g fuel L _ n (antDfs_self_mem g hf n v0)
    · exact ihL _ n h2

theorem antDfs_one_slide (g : HexGrid) {fuel : Nat} (hf : 2 ≤ fuel)
    (loc : HexLocation) :
    ∀ n ∈ (g.slidable_locations loc).filter
        (fun sl => !(g.get_neighbors sl).isEmpty),
      n ∈ antDfs g fuel loc [] := by
  intro n hn
  obtain ⟨f, rfl⟩ : ∃ f, fuel = f + 1 := ⟨fuel - 1, by omega⟩
  rw [antDfs_succ, if_neg (List.not_mem_nil loc)]
  exact antDfs_foldl_each g (by omega) _ _ n hn

/-! ## Grasshopper ray lemmas -/


theorem rayN_shift (s : HexLocation) (d : Direction) :
    ∀ j, rayN (s.apply d) d j = rayN s d (j + 1) := by
  intro j
  induction j with
  | zero => rfl
  | succ j ih =>
    show (rayN (s.apply d) d j).apply d = (rayN s d (j + 1)).apply d
    rw [ih]



theorem apply_coords (l : HexLocation) (d : Direction) :
    l.apply d = ⟨l.x + dirX d, l.y + dirY d⟩ := by
  obtain ⟨x, y⟩ := l
  cases d <;> simp only [HexLocation.apply, dirX, dirY, HexLocation.mk.injEq] <;>
    refine ⟨?_, ?_⟩ <;>
    first
    | trivial
    | omega

theorem rayN_coords (s : HexLocation) (d : Direction) :
    ∀ j : Nat, rayN s d j = ⟨s.x + j * dirX d, s.y + j * dirY d⟩ := by
  intro j
  induction j with
  | zero =>
    show s = _
    obtain ⟨x, y⟩ := s
    simp
  | succ j ih =>
    show (rayN s d j).apply d = _
    rw [ih, apply_coords]
    simp only [HexLocation.mk.injEq]
    constructor <;> push_cast <;> ring

theorem rayN_far (loc : HexLocation) (d : Direction) {k : Nat} (hk : 2 ≤ k) :
    rayN loc d k ≠ loc ∧ rayN loc d k ∉ neighbors_of loc := by
  have hc := rayN_coords loc d k
  constructor
  · intro h
    rw [hc] at h
    obtain ⟨x, y⟩ := loc
    simp only [HexLocation.mk.injEq] at h
    cases d <;> simp only [dirX, dirY] at h <;> omega
  · intro h
    rw [mem_neighbors] at h
    obtain ⟨d2, h⟩ := h
    rw [hc, apply_coords] at h
    obtain ⟨x, y⟩ := loc
    simp only [HexLocation.mk.injEq] at h
    cases d <;> cases d2 <;> simp only [dirX, dirY] at h <;> omega

theorem ray_eventually_empty {g : HexGrid} (hin : InnerMargin g) {loc : HexLocation}
    (hocc : g.occB loc = true) (d : Direction) : g.occB (rayN loc d 60) = false := by
  by_contra h
  rw [Bool.not_eq_false] at h
  have h1 := hin loc hocc
  have h2 := hin _ h
  rw [rayN_coords loc d 60] at h2
  obtain ⟨x, y⟩ := loc
  simp only at h1 h2
  cases d <;> simp only [dirX, dirY] at h2 <;> omega

/-! ## Grasshopper walk lemmas -/

theorem grasshopperWalk_zero (outside : List HexLocation) (d : Direction)
    (s : HexLocation) : grasshopperWalk outside d 0 s = none := rfl

theorem grasshopperWalk_succ (outside : List HexLocation) (d : Direction)
    (fuel : Nat) (s : HexLocation) :
    grasshopperWalk outside d (fuel + 1) s =
      if s ∈ outside then some s else grasshopperWalk outside d fuel (s.apply d) := by
  rw [grasshopperWalk]

theorem grasshopperWalk_some {outside : List HexLocation} {d : Direction} :
    ∀ (fuel : Nat) (s l : HexLocation), grasshopperWalk outside d fuel s = some l →
      l ∈ outside ∧ ∃ j : Nat, l = rayN s d j := by
  intro fuel
  induction fuel with
  | zero =>
    intro s l h
    rw [grasshopperWalk_zero] at h
    cases h
  | succ fuel ih =>
    intro s l h
    rw [grasshopperWalk_succ] at h
    split at h
    next hmem =>
      rw [Option.some.injEq] at h
      subst h
      exact ⟨hmem, 0, rfl⟩
    next hmem =>
      obtain ⟨hl, j, hj⟩ := ih _ _ h
      refine ⟨hl, j + 1, ?_⟩
      rw [hj, rayN_shift]

theorem grasshopperWalk_exact {outside : List HexLocation} {d : Direction}
    {s0 : HexLocation} {k : Nat}
    (hin : ∀ j, j < k → rayN s0 d j ∉ outside)
    (hk : rayN s0 d k ∈ outside) :
    ∀ (fuel i : Nat), i ≤ k → k - i < fuel →
      grasshopperWalk outside d fuel (rayN s0 d i) = some (rayN s0 d k) := by
  intro fuel
  induction fuel with
  | zero =>
    intro i h1 h2
    omega
  | succ fuel ih =>
    intro i h1 h2
    rw [grasshopperWalk_succ]
    by_cases hik : i = k
    · subst hik
      rw [if_pos hk]
    · rw [if_neg (hin i (by omega))]
      show grasshopperWalk outside d fuel (rayN s0 d (i + 1)) = _
      exact ih (i + 1) (by omega) (by omega)

/-! ## Generator reduction lemmas -/

theorem occB_of_peek_cons {g : HexGrid} {loc : HexLocation} {q : Piece}
    {rest : List Piece} (h : g.peek loc = q :: rest) : g.occB loc = true := by
  rw [HexGrid.occB, h]
  rfl

theorem get_neighbors_ne_nil {g : HexGrid} {l : HexLocation}
    (h : g.get_neighbors l ≠ []) : ∃ e ∈ neighbors_of l, g.occB e = true := by
  rcases List.exists_mem_of_ne_nil _ h with ⟨e, he⟩
  rw [HexGrid.get_neighbors, List.mem_filter] at he
  exact ⟨e, he.1, he.2⟩

theorem filterMap_ite {α β : Type} (L : List α) (p : α → Prop) [DecidablePred p]
    (f : α → β) :
    (L.filterMap fun a => if p a then some (f a) else none) =
      (L.filter fun a => decide (p a)).map f := by
  induction L with
  | nil => rfl
  | cons a L ih =>
    by_cases h : p a
    · simp [h, ih]
    · simp [h, ih]

theorem queen_moves_eq {m : MoveGeneratorDebugger} {location : HexLocation} {q : Piece}
    (hq : m.grid.peek location = [q]) (hnp : location ∉ m.pinned) :
    m.queen_moves location =
      (((m.grid.remove location).2.slidable_locations location).filter
        (fun n => (m.grid.remove location).2.outsideB n)).map
        (fun n => ((m.grid.remove location).2).add q n) := by
  simp only [MoveGeneratorDebugger.queen_moves, if_neg hnp, hq]
  rw [← slidable_remove_self]
  rw [filterMap_ite _ (fun sl => sl ∈ (m.grid.remove location).2.outside) _]
  congr 1
  apply List.filter_congr
  intro a _
  cases hv : (m.grid.remove location).2.outsideB a with
  | false =>
    have : a ∉ (m.grid.remove location).2.outside := by
      rw [outside_mem, hv]
      simp
    simp [this]
  | true =>
    have : a ∈ (m.grid.remove location).2.outside := by
      rw [outside_mem, hv]
    simp [this]

theorem queen_moves_mem {m : MoveGeneratorDebugger} {location : HexLocation}
    {q : Piece} (hq : m.grid.peek location = [q]) (hnp : location ∉ m.pinned)
    {b : HexGrid} :
    b ∈ m.queen_moves location ↔
      ∃ n, n ∈ (m.grid.remove location).2.slidable_locations location ∧
        (m.grid.remove location).2.outsideB n = true ∧
        b = ((m.grid.remove location).2).add q n := by
  rw [queen_moves_eq hq hnp]
  simp only [List.mem_map, List.mem_filter]
  constructor
  · rintro ⟨n, ⟨h1, h2⟩, rfl⟩
    exact ⟨n, h1, h2, rfl⟩
  · rintro ⟨n, h1, h2, rfl⟩
    exact ⟨n, ⟨h1, h2⟩, rfl⟩

theorem ant_moves_eq {m : MoveGeneratorDebugger} {location : HexLocation} {q : Piece}
    (hq : m.grid.peek location = [q]) (hnp : location ∉ m.pinned) :
    m.ant_moves location =
      ((antDfs (m.grid.remove location).2 4096 location []).erase location).map
        (fun l => ((m.grid.remove location).2).add q l) := by
  rw [MoveGeneratorDebugger.ant_moves, if_neg hnp]
  have h1 : (m.grid.remove location).1 = some q := by
    rw [remove_fst, hq]
    rfl
  have h2 : m.grid.remove location = (some q, (m.grid.remove location).2) := by
    rw [← h1]
  rw [h2]

theorem ant_moves_mem {m : MoveGeneratorDebugger} {location : HexLocation}
    {q : Piece} (hq : m.grid.peek location = [q]) (hnp : location ∉ m.pinned)
    {b : HexGrid} :
    b ∈ m.ant_moves location ↔
      ∃ l, l ∈ (antDfs (m.grid.remove location).2 4096 location []).erase location ∧
        b = ((m.grid.remove location).2).add q l := by
  rw [ant_moves_eq hq hnp]
  simp only [List.mem_map]
  constructor
  · rintro ⟨l, hl, rfl⟩
    exact ⟨l, hl, rfl⟩
  · rintro ⟨l, hl, rfl⟩
    exact ⟨l, hl, rfl⟩

theorem grasshopper_moves_mem {m : MoveGeneratorDebugger} {location : HexLocation}
    {q : Piece} (hq : m.grid.peek location = [q]) (hnp : location ∉ m.pinned)
    {b : HexGrid} :
    b ∈ m.grasshopper_moves location ↔
      ∃ d : Direction, ∃ landing,
        m.grasshopperCandidate location d = some landing ∧
        b = ((m.grid.remove location).2).add q landing := by
  simp only [MoveGeneratorDebugger.grasshopper_moves, if_neg hnp, hq,
    List.mem_filterMap, Option.map_eq_some']
  constructor
  · rintro ⟨d, _, landing, hcand, rfl⟩
    exact ⟨d, landing, hcand, rfl⟩
  · rintro ⟨d, landing, hcand, rfl⟩
    exact ⟨d, Direction.mem_all d, landing, hcand, rfl⟩

theorem spider_moves_mem {m : MoveGeneratorDebugger} {location : HexLocation}
    {s : Piece} (hs : m.grid.peek location = [s]) (hnp : location ∉ m.pinned)
    {b : HexGrid} :
    b ∈ m.spider_moves location ↔
      ∃ x, SpiderPath (m.grid.remove location).2 location x ∧
        b = ((m.grid.remove location).2).add s x := by
  simp only [MoveGeneratorDebugger.spider_moves, if_neg hnp, hs, List.mem_map,
    List.mem_dedup, spider_dfs_mem]
  constructor
  · rintro ⟨x, hx, rfl⟩
    exact ⟨x, hx, rfl⟩
  · rintro ⟨x, hx, rfl⟩
    exact ⟨x, hx, rfl⟩

/-- The common connectivity argument: after removing the single occupant of
`location` the board is still connected, and re-adding a piece on an empty
cell `n` that touches the remaining hive yields a connected board. -/
theorem add_to_removed_connected {g : HexGrid} {location : HexLocation} {q p : Piece}
    {n : HexLocation}
    (hwf : GridWF g) (hin : InnerMargin g) (hq : g.peek location = [q])
    (hconn_rem : (g.remove location).2.IsConnected)
    (hadj : ∃ e, e ∈ neighbors_of n ∧ (g.remove location).2.occB e = true) :
    ((g.remove location).2.add p n).IsConnected := by
  obtain ⟨e, hem, heo⟩ := hadj
  have heg : g.occB e = true := by
    have heo2 := heo
    rw [occB_remove_single hq e, Bool.and_eq_true] at heo2
    exact heo2.1
  have hbounds := hin e heg
  have hnmem : n ∈ neighbors_of e := neighbors_symm hem
  rw [mem_neighbors] at hnmem
  obtain ⟨d, rfl⟩ := hnmem
  obtain ⟨hc1, hc2, hc3, hc4⟩ := @neighbor_coord_bound e d
  have hcen := centralize_of_bounds (l := e.apply d) (by omega) (by omega)
    (by omega) (by omega)
  have hwfr := GridWF.remove hwf location
  have hadd := occB_add hwfr (p := p) hcen
  apply isConnected_add_adjacent (d := e.apply d) hconn_rem
  · intro l
    rw [hadd l]
    simp
  · exact ⟨e, hem, heo⟩

/-! ## Grasshopper candidate lemmas -/

theorem outsideB_of_occ {g : HexGrid} {l : HexLocation} (h : g.occB l = true) :
    g.outsideB l = false := by
  rw [HexGrid.outsideB, h]
  rfl

theorem grasshopperCandidate_some {m : MoveGeneratorDebugger} {loc : HexLocation}
    {d : Direction} {l : HexLocation}
    (h : m.grasshopperCandidate loc d = some l) :
    l ∈ m.outside ∧ ∃ j : Nat, 2 ≤ j ∧ l = rayN loc d j := by
  rw [MoveGeneratorDebugger.grasshopperCandidate] at h
  split at h
  next => cases h
  next hmem =>
    obtain ⟨hl, j, hj⟩ := grasshopperWalk_some _ _ _ h
    refine ⟨hl, ?_⟩
    cases j with
    | zero =>
      exfalso
      rw [hj] at hl
      exact hmem hl
    | succ j =>
      refine ⟨j + 2, by omega, ?_⟩
      rw [hj, rayN_shift]

theorem grasshopperCandidate_empty {m : MoveGeneratorDebugger} {loc : HexLocation}
    {d : Direction} (ho : OutsideFaithful m) (hocc : m.grid.occB loc = true)
    (himm : m.grid.occB (loc.apply d) = false) :
    m.grasshopperCandidate loc d = none := by
  rw [MoveGeneratorDebugger.grasshopperCandidate, if_pos]
  rw [ho _, outsideB_iff]
  refine ⟨himm, loc, ?_, hocc⟩
  exact neighbors_symm ((mem_neighbors _ _).2 ⟨d, rfl⟩)

theorem grasshopperCandidate_occupied {m : MoveGeneratorDebugger} {loc : HexLocation}
    {d : Direction} (ho : OutsideFaithful m) (hin : InnerMargin m.grid)
    (hocc : m.grid.occB loc = true)
    (himm : m.grid.occB (loc.apply d) = true) :
    ∃ k : Nat, 1 ≤ k ∧
      (∀ j, 1 ≤ j → j ≤ k → m.grid.occB (rayN loc d j) = true) ∧
      m.grid.occB (rayN loc d (k + 1)) = false ∧
      m.grasshopperCandidate loc d = some (rayN loc d (k + 1)) := by
  have hex : ∃ j, 1 ≤ j ∧ m.grid.occB (rayN loc d j) = false :=
    ⟨60, by omega, ray_eventually_empty hin hocc d⟩
  have hfind := Nat.find_spec hex
  have hmin : ∀ j, j < Nat.find hex →
      ¬(1 ≤ j ∧ m.grid.occB (rayN loc d j) = false) :=
    fun j hj => Nat.find_min hex hj
  have hQ : m.grid.occB (rayN loc d (Nat.find hex)) = false := hfind.2
  have hfind_le : Nat.find hex ≤ 60 :=
    Nat.find_le ⟨by omega, ray_eventually_empty hin hocc d⟩
  have hne1 : Nat.find hex ≠ 1 := by
    intro h
    rw [h] at hQ
    have h2 : rayN loc d 1 = loc.apply d := rfl
    rw [h2, himm] at hQ
    cases hQ
  have h2le : 2 ≤ Nat.find hex := by
    have := hfind.1
    omega
  have hocc_seg : ∀ j, 1 ≤ j → j ≤ Nat.find hex - 1 →
      m.grid.occB (rayN loc d j) = true := by
    intro j hj1 hj2
    by_contra h
    rw [Bool.not_eq_true] at h
    exact hmin j (by omega) ⟨hj1, h⟩
  have hstep : rayN loc d (Nat.find hex) =
      (rayN loc d (Nat.find hex - 1)).apply d := by
    have h3 : Nat.find hex = (Nat.find hex - 1) + 1 := by omega
    conv_lhs => rw [h3]
    rfl
  have hstop_out : rayN loc d (Nat.find hex) ∈ m.outside := by
    rw [ho _, outsideB_iff]
    refine ⟨hQ, rayN loc d (Nat.find hex - 1), ?_,
      hocc_seg _ (by omega) (by omega)⟩
    rw [hstep]
    exact neighbors_symm ((mem_neighbors _ _).2 ⟨d, rfl⟩)
  have hseg_not : ∀ j, j < Nat.find hex - 1 →
      rayN (loc.apply d) d j ∉ m.outside := by
    intro j hj
    rw [ho _, rayN_shift, outsideB_iff]
    rintro ⟨hf, -⟩
    rw [hocc_seg (j + 1) (by omega) (by omega)] at hf
    cases hf
  have hk_out : rayN (loc.apply d) d (Nat.find hex - 1) ∈ m.outside := by
    rw [rayN_shift]
    have h4 : Nat.find hex - 1 + 1 = Nat.find hex := by omega
    rw [h4]
    exact hstop_out
  have hwalk := grasshopperWalk_exact hseg_not hk_out 100 0 (by omega) (by omega)
  refine ⟨Nat.find hex - 1, by omega, hocc_seg, ?_, ?_⟩
  · have h4 : Nat.find hex - 1 + 1 = Nat.find hex := by omega
    rw [h4]
    exact hQ
  · rw [MoveGeneratorDebugger.grasshopperCandidate, if_neg]
    · have h5 : rayN (loc.apply d) d 0 = loc.apply d := rfl
      rw [h5] at hwalk
      rw [hwalk, rayN_shift]
    · rw [ho _]
      intro hcontra
      rw [outsideB_of_occ himm] at hcontra
      cases hcontra

/-! ## Facts about the concrete boards -/

theorem centralize_locO : HexGrid.centralize locO = some (30, 30) := rfl

theorem centralize_locE1 : HexGrid.centralize locE1 = some (31, 30) := rfl

theorem centralize_locW1 : HexGrid.centralize locW1 = some (29, 30) := rfl

theorem gTwo_wf : GridWF gTwo :=
  GridWF.add (GridWF.add GridWF.new pS locO) pA locE1

theorem gThree_wf : GridWF gThree :=
  GridWF.add (GridWF.add (GridWF.add GridWF.new pA locW1) pS locO) pA locE1

theorem gTwo_occ (l : HexLocation) :
    gTwo.occB l = (decide (l = locO) || decide (l = locE1)) := by
  unfold gTwo
  rw [occB_add (GridWF.add GridWF.new pS locO) centralize_locE1 l,
    occB_add GridWF.new centralize_locO l, occB_new, Bool.false_or]

theorem gThree_occ (l : HexLocation) :
    gThree.occB l =
      (decide (l = locW1) || decide (l = locO) || decide (l = locE1)) := by
  unfold gThree
  rw [occB_add (GridWF.add (GridWF.add GridWF.new pA locW1) pS locO)
      centralize_locE1 l,
    occB_add (GridWF.add GridWF.new pA locW1) centralize_locO l,
    occB_add GridWF.new centralize_locW1 l, occB_new, Bool.false_or]

theorem gTwo_connected : gTwo.IsConnected := by
  apply isConnected_two (a := locO) (b := locE1)
  · intro l hl
    rw [gTwo_occ] at hl
    rw [Bool.or_eq_true] at hl
    rcases hl with h | h
    · exact Or.inl (of_decide_eq_true h)
    · exact Or.inr (of_decide_eq_true h)
  · rfl
  · rfl
  · decide

theorem gTwo_inner : InnerMargin gTwo := by
  intro l hl
  rw [gTwo_occ] at hl
  rw [Bool.or_eq_true] at hl
  rcases hl with h | h <;> rw [of_decide_eq_true h] <;> decide

theorem mTwo_pf : PinnedFaithful mTwo := by
  intro l
  constructor
  · intro h
    exact absurd h (List.not_mem_nil l)
  · rintro ⟨hocc, hnc⟩
    exfalso
    apply hnc
    rw [show mTwo.grid = gTwo from rfl] at hocc ⊢
    rw [gTwo_occ] at hocc
    rw [Bool.or_eq_true] at hocc
    rcases hocc with h | h
    · rw [of_decide_eq_true h]
      apply isConnected_one (c := locE1)
      intro l2 hl2
      rw [occB_remove_single (show gTwo.peek locO = [pS] from rfl) l2,
        Bool.and_eq_true] at hl2
      obtain ⟨h1, h2⟩ := hl2
      rw [gTwo_occ] at h1
      rw [Bool.or_eq_true] at h1
      rcases h1 with h3 | h3
      · rw [of_decide_eq_true h3] at h2
        simp at h2
      · exact of_decide_eq_true h3
    · rw [of_decide_eq_true h]
      apply isConnected_one (c := locO)
      intro l2 hl2
      rw [occB_remove_single (show gTwo.peek locE1 = [pA] from rfl) l2,
        Bool.and_eq_true] at hl2
      obtain ⟨h1, h2⟩ := hl2
      rw [gTwo_occ] at h1
      rw [Bool.or_eq_true] at h1
      rcases h1 with h3 | h3
      · exact of_decide_eq_true h3
      · rw [of_decide_eq_true h3] at h2
        simp at h2

theorem mTwo_of : OutsideFaithful mTwo := fun l => outside_mem gTwo l

theorem gThree_pinned_locO : PinnedP gThree locO := by
  refine ⟨rfl, ?_⟩
  intro hcon
  have h1 : (gThree.remove locO).2.occB locW1 = true := rfl
  have h2 : (gThree.remove locO).2.occB locE1 = true := rfl
  have h3 := hcon locW1 locE1 h1 h2
  have h4 := rtg_of_no_step (no_step_of_no_occ_neighbors (by decide)) h3
  exact absurd h4 (by decide)

theorem mThree_pf : PinnedFaithful mThree := by
  intro l
  constructor
  · intro h
    rw [show mThree.pinned = [locO] from rfl, List.mem_singleton] at h
    rw [h]
    exact gThree_pinned_locO
  · rintro ⟨hocc, hnc⟩
    rw [show mThree.grid = gThree from rfl] at hocc hnc
    rw [gThree_occ] at hocc
    rw [show mThree.pinned = [locO] from rfl, List.mem_singleton]
    rw [Bool.or_eq_true] at hocc
    rcases hocc with h | h
    · rw [Bool.or_eq_true] at h
      rcases h with h2 | h2
      · exfalso
        apply hnc
        rw [of_decide_eq_true h2]
        apply isConnected_two (a := locO) (b := locE1)
        · intro l2 hl2
          rw [occB_remove_single (show gThree.peek locW1 = [pA] from rfl) l2,
            Bool.and_eq_true] at hl2
          obtain ⟨h3, h4⟩ := hl2
          rw [gThree_occ] at h3
          rw [Bool.or_eq_true] at h3
          rcases h3 with h5 | h5
          · rw [Bool.or_eq_true] at h5
            rcases h5 with h6 | h6
            · rw [of_decide_eq_true h6] at h4
              simp at h4
            · exact Or.inl (of_decide_eq_true h6)
          · exact Or.inr (of_decide_eq_true h5)
        · rfl
        · rfl
        · decide
      · exact of_decide_eq_true h2
    · exfalso
      apply hnc
      rw [of_decide_eq_true h]
      apply isConnected_two (a := locW1) (b := locO)
      · intro l2 hl2
        rw [occB_remove_single (show gThree.peek locE1 = [pA] from rfl) l2,
          Bool.and_eq_true] at hl2
        obtain ⟨h3, h4⟩ := hl2
        rw [gThree_occ] at h3
        rw [Bool.or_eq_true] at h3
        rcases h3 with h5 | h5
        · rw [Bool.or_eq_true] at h5
          rcases h5 with h6 | h6
          · exact Or.inl (of_decide_eq_true h6)
          · exact Or.inr (of_decide_eq_true h6)
        · rw [of_decide_eq_true h5] at h4
          simp at h4
      · rfl
      · rfl
      · decide

/-! ## Claim theorems -/

/-- C1 (amended): for every board satisfying the One Hive precondition (and
the storage margin), every board returned by `queen_moves`,
`grasshopper_moves` or `ant_moves` satisfies `is_connected()`.  The original
claim also includes `spider_moves`, which is refuted by
`spider_moves_can_disconnect`: the spider's slide path is not required to
stay in contact with the hive, so its endpoint can be detached ground. -/
theorem connectivity_preserved_queen_grasshopper_ant
    (m : MoveGeneratorDebugger) (location : HexLocation)
    (hwf : GridWF m.grid) (hpf : PinnedFaithful m) (hof : OutsideFaithful m)
    (hin : InnerMargin m.grid) (hc : m.grid.IsConnected)
    (hq : ∃ p, m.grid.peek location = [p]) :
    (∀ b ∈ m.queen_moves location, b.IsConnected) ∧
    (∀ b ∈ m.grasshopper_moves location, b.IsConnected) ∧
    (∀ b ∈ m.ant_moves location, b.IsConnected) := by
  obtain ⟨q, hq⟩ := hq
  by_cases hp : location ∈ m.pinned
  · refine ⟨?_, ?_, ?_⟩ <;> intro b hb <;>
      simp [MoveGeneratorDebugger.queen_moves,
        MoveGeneratorDebugger.grasshopper_moves,
        MoveGeneratorDebugger.ant_moves, hp] at hb
  · have hoccl : m.grid.occB location = true := occB_of_peek_cons hq
    have hnpin : ¬ PinnedP m.grid location := fun h => hp ((hpf location).2 h)
    have hconn_rem : (m.grid.remove location).2.IsConnected := by
      by_contra h
      exact hnpin ⟨hoccl, h⟩
    refine ⟨?_, ?_, ?_⟩
    · intro b hb
      rw [queen_moves_mem hq hp] at hb
      obtain ⟨n, hsl, hout, rfl⟩ := hb
      rw [outsideB_iff] at hout
      obtain ⟨hnocc, e, hem, heo⟩ := hout
      exact add_to_removed_connected hwf hin hq hconn_rem ⟨e, hem, heo⟩
    · intro b hb
      rw [grasshopper_moves_mem hq hp] at hb
      obtain ⟨d, landing, hcand, rfl⟩ := hb
      obtain ⟨hmem, j, hj2, rfl⟩ := grasshopperCandidate_some hcand
      rw [hof _, outsideB_iff] at hmem
      obtain ⟨hnocc, e, hem, heo⟩ := hmem
      have hene : e ≠ location := by
        intro hcontra
        exact (rayN_far location d hj2).2 (neighbors_symm (hcontra ▸ hem))
      have heo_rem : (m.grid.remove location).2.occB e = true := by
        rw [occB_remove_single hq e, heo]
        simp [hene]
      exact add_to_removed_connected hwf hin hq hconn_rem ⟨e, hem, heo_rem⟩
    · intro b hb
      rw [ant_moves_mem hq hp] at hb
      obtain ⟨l, hl, rfl⟩ := hb
      have hnodup := antDfs_nodup (m.grid.remove location).2 4096 location []
        List.nodup_nil
      rw [List.Nodup.mem_erase_iff hnodup] at hl
      obtain ⟨hlne, hlmem⟩ := hl
      rcases antDfs_sound _ _ _ _ _ hlmem with h | h | h
      · cases h
      · exact absurd h hlne
      · obtain ⟨hlocc, hne⟩ := h
        obtain ⟨e, hem, heo⟩ := get_neighbors_ne_nil hne
        exact add_to_removed_connected hwf hin hq hconn_rem ⟨e, hem, heo⟩

/-- C1 counterexample: on the connected two-piece board `gTwo`, the spider
at the origin reaches (-3, 0) by three slides away from the hive, and the
resulting board is disconnected.  This refutes connectivity preservation for
`spider_moves` as the claim states it. -/
theorem spider_moves_can_disconnect :
    gTwo.IsConnected ∧
      ∃ b ∈ mTwo.spider_moves locO, ¬ b.IsConnected := by
  refine ⟨gTwo_connected, ((gTwo.remove locO).2).add pS ⟨-3, 0⟩, ?_, ?_⟩
  · rw [spider_moves_mem (show mTwo.grid.peek locO = [pS] from rfl)
      (List.not_mem_nil locO)]
    refine ⟨⟨-3, 0⟩, ?_, rfl⟩
    exact ⟨⟨-1, 0⟩, by decide, by decide, ⟨-2, 0⟩, by decide, by decide,
      by decide, by decide, by decide, by decide, by decide⟩
  · intro hcon
    have h1 := hcon locE1 ⟨-3, 0⟩ (by decide) (by decide)
    have h2 := rtg_of_no_step (no_step_of_no_occ_neighbors (by decide)) h1
    exact absurd h2 (by decide)

/-- C1 witness: the hypotheses of the amended connectivity theorem hold on
the concrete connected board `gTwo`, and the conclusion follows by the
theorem. -/
theorem connectivity_preserved_witness :
    (GridWF gTwo ∧ PinnedFaithful mTwo ∧ OutsideFaithful mTwo ∧
      InnerMargin gTwo ∧ gTwo.IsConnected ∧ ∃ p, gTwo.peek locO = [p]) ∧
    (∀ b ∈ mTwo.queen_moves locO, b.IsConnected) ∧
    (∀ b ∈ mTwo.grasshopper_moves locO, b.IsConnected) ∧
    (∀ b ∈ mTwo.ant_moves locO, b.IsConnected) := by
  have h := connectivity_preserved_queen_grasshopper_ant mTwo locO gTwo_wf
    mTwo_pf mTwo_of gTwo_inner gTwo_connected ⟨pS, rfl⟩
  exact ⟨⟨gTwo_wf, mTwo_pf, mTwo_of, gTwo_inner, gTwo_connected, ⟨pS, rfl⟩⟩,
    h.1, h.2.1, h.2.2⟩

/-- C2: for every board and every occupied location that is in `pinned()`,
each piece-specific generator returns the empty set for that location
(each generator returns `[]` from its first branch, before any search). -/
theorem pinned_exclusion (m : MoveGeneratorDebugger) (location : HexLocation)
    (hpf : PinnedFaithful m) (hp : PinnedP m.grid location) :
    m.queen_moves location = [] ∧ m.grasshopper_moves location = [] ∧
      m.spider_moves location = [] ∧ m.ant_moves location = [] := by
  have hm : location ∈ m.pinned := (hpf location).2 hp
  refine ⟨?_, ?_, ?_, ?_⟩ <;>
    simp [MoveGeneratorDebugger.queen_moves,
      MoveGeneratorDebugger.grasshopper_moves,
      MoveGeneratorDebugger.spider_moves, MoveGeneratorDebugger.ant_moves, hm]

/-- C2 witness: on the three-in-a-row board the origin is genuinely pinned
(its removal disconnects the two ends), and all four generators return no
moves for it. -/
theorem pinned_exclusion_witness :
    (PinnedFaithful mThree ∧ PinnedP mThree.grid locO) ∧
      mThree.queen_moves locO = [] ∧ mThree.grasshopper_moves locO = [] ∧
      mThree.spider_moves locO = [] ∧ mThree.ant_moves locO = [] := by
  have h := pinned_exclusion mThree locO mThree_pf gThree_pinned_locO
  exact ⟨⟨mThree_pf, gThree_pinned_locO⟩, h⟩

/-- C3: for every board and every pair of adjacent cells `a` and `b`,
`slidable(a)` contains `b` iff `b` is unoccupied and at least one cell
simultaneously adjacent to both `a` and `b` (a flanking cell of the shared
edge) is unoccupied; when both flanking cells are occupied, `b` is
excluded. -/
theorem slidable_gate_rule (g : HexGrid) (a b : HexLocation)
    (hadj : b ∈ neighbors_of a) :
    b ∈ g.slidable_locations a ↔
      (g.occB b = false ∧
        ∃ c, c ∈ neighbors_of a ∧ c ∈ neighbors_of b ∧ g.occB c = false) := by
  rw [mem_slidable]
  constructor
  · rintro ⟨d, rfl, h1, h2⟩
    refine ⟨h1, ?_⟩
    rcases h2 with h2 | h2
    · exact ⟨a.apply d.ccw, (ccw_common a d).1, (ccw_common a d).2, h2⟩
    · exact ⟨a.apply d.cw, (cw_common a d).1, (cw_common a d).2, h2⟩
  · rintro ⟨h1, c, hca, hcb, hcocc⟩
    rw [mem_neighbors] at hadj
    obtain ⟨d, rfl⟩ := hadj
    refine ⟨d, rfl, h1, ?_⟩
    rcases common_classify hca hcb with rfl | rfl
    · exact Or.inl hcocc
    · exact Or.inr hcocc

/-- C3 witness: the gate rule instantiated at the adjacent pair
(0,0)-(0,1) of the concrete board `gTwo`. -/
theorem slidable_gate_rule_witness :
    (⟨0, 1⟩ : HexLocation) ∈ neighbors_of locO ∧
      ((⟨0, 1⟩ : HexLocation) ∈ gTwo.slidable_locations locO ↔
        (gTwo.occB ⟨0, 1⟩ = false ∧
          ∃ c, c ∈ neighbors_of locO ∧ c ∈ neighbors_of (⟨0, 1⟩ : HexLocation) ∧
            gTwo.occB c = false)) :=
  ⟨by decide, slidable_gate_rule gTwo locO ⟨0, 1⟩ (by decide)⟩

/-- C4: every board returned by `spider_moves` corresponds to a path of
exactly 3 slides over `slidable` transitions on the spider-removed board
with all four visited cells distinct (`SpiderPath`), and conversely every
such path endpoint yields a returned board; the destination set is the
deduplicated set of endpoints of such length-3 paths, so no result is
obtained from a shorter or revisiting path. -/
theorem spider_three_slide_paths (m : MoveGeneratorDebugger)
    (location : HexLocation) (s : Piece) (hs : m.grid.peek location = [s])
    (hnp : location ∉ m.pinned) :
    ∀ b, b ∈ m.spider_moves location ↔
      ∃ x, SpiderPath (m.grid.remove location).2 location x ∧
        b = ((m.grid.remove location).2).add s x :=
  fun _ => spider_moves_mem hs hnp

/-- C4 witness: the spider path characterization instantiated on the
concrete board `gTwo`. -/
theorem spider_three_slide_paths_witness :
    (mTwo.grid.peek locO = [pS] ∧ locO ∉ mTwo.pinned) ∧
      ∀ b, b ∈ mTwo.spider_moves locO ↔
        ∃ x, SpiderPath (mTwo.grid.remove locO).2 locO x ∧
          b = ((mTwo.grid.remove locO).2).add pS x :=
  ⟨⟨rfl, List.not_mem_nil locO⟩,
    spider_three_slide_paths mTwo locO pS rfl (List.not_mem_nil locO)⟩

/-- C5: for every unpinned single-occupant grasshopper location and each of
the 6 directions independently: if the immediate neighbor in that direction
is unoccupied, the direction yields no candidate; otherwise it yields
exactly one candidate, the first unoccupied cell past the occupied run in
that direction.  The first conjunct ties the per-direction candidate
function to `grasshopper_moves`. -/
theorem grasshopper_directionality (m : MoveGeneratorDebugger)
    (location : HexLocation) (q : Piece) (ho : OutsideFaithful m)
    (hin : InnerMargin m.grid) (hq : m.grid.peek location = [q])
    (hnp : location ∉ m.pinned) :
    (m.grasshopper_moves location =
      Direction.all.filterMap fun d =>
        (m.grasshopperCandidate location d).map fun landing =>
          ((m.grid.remove location).2).add q landing) ∧
    ∀ d : Direction,
      (m.grid.occB (location.apply d) = false →
        m.grasshopperCandidate location d = none) ∧
      (m.grid.occB (location.apply d) = true →
        ∃ k, 1 ≤ k ∧
          (∀ j, 1 ≤ j → j ≤ k → m.grid.occB (rayN location d j) = true) ∧
          m.grid.occB (rayN location d (k + 1)) = false ∧
          m.grasshopperCandidate location d = some (rayN location d (k + 1))) := by
  have hocc := occB_of_peek_cons hq
  refine ⟨?_, fun d => ⟨fun h => grasshopperCandidate_empty ho hocc h,
    fun h => grasshopperCandidate_occupied ho hin hocc h⟩⟩
  simp only [MoveGeneratorDebugger.grasshopper_moves, if_neg hnp, hq]

/-- C5 witness: the grasshopper characterization instantiated on `gTwo` at
the origin (whose east neighbor is occupied and the other five are not). -/
theorem grasshopper_directionality_witness :
    (OutsideFaithful mTwo ∧ InnerMargin mTwo.grid ∧ mTwo.grid.peek locO = [pS] ∧
      locO ∉ mTwo.pinned) ∧
    (mTwo.grasshopper_moves locO =
      Direction.all.filterMap fun d =>
        (mTwo.grasshopperCandidate locO d).map fun landing =>
          ((mTwo.grid.remove locO).2).add pS landing) ∧
    ∀ d : Direction,
      (mTwo.grid.occB (locO.apply d) = false →
        mTwo.grasshopperCandidate locO d = none) ∧
      (mTwo.grid.occB (locO.apply d) = true →
        ∃ k, 1 ≤ k ∧
          (∀ j, 1 ≤ j → j ≤ k → mTwo.grid.occB (rayN locO d j) = true) ∧
          mTwo.grid.occB (rayN locO d (k + 1)) = false ∧
          mTwo.grasshopperCandidate locO d = some (rayN locO d (k + 1))) := by
  have h := grasshopper_directionality mTwo locO pS mTwo_of gTwo_inner rfl
    (List.not_mem_nil locO)
  exact ⟨⟨mTwo_of, gTwo_inner, rfl, List.not_mem_nil locO⟩, h.1, h.2⟩

/-- C6: for an unpinned single-occupant queen, the destination set equals
`slidable(loc) ∩ outside()` with both computed on the queen-removed board
(the source computes `slidable` on the un-removed board, but the two agree
because the slide test never inspects the queen's own cell), and
`queen_moves` returns exactly one board per qualifying neighbor. -/
theorem queen_destination_rule (m : MoveGeneratorDebugger)
    (location : HexLocation) (q : Piece) (hq : m.grid.peek location = [q])
    (hnp : location ∉ m.pinned) :
    m.queen_moves location =
      (((m.grid.remove location).2.slidable_locations location).filter
        (fun n => (m.grid.remove location).2.outsideB n)).map
        (fun n => ((m.grid.remove location).2).add q n) :=
  queen_moves_eq hq hnp

/-- C6 witness: the queen destination rule instantiated on `gTwo`. -/
theorem queen_destination_rule_witness :
    (mTwo.grid.peek locO = [pS] ∧ locO ∉ mTwo.pinned) ∧
      mTwo.queen_moves locO =
        (((mTwo.grid.remove locO).2.slidable_locations locO).filter
          (fun n => (mTwo.grid.remove locO).2.outsideB n)).map
          (fun n => ((mTwo.grid.remove locO).2).add pS n) :=
  ⟨⟨rfl, List.not_mem_nil locO⟩,
    queen_destination_rule mTwo locO pS rfl (List.not_mem_nil locO)⟩

/-- C7: on the same board with the same piece location, the ant's
destination set (the visited set of its reachability search minus the
origin) restricted to cells reachable in exactly one slide equals the
queen's destination set.  The first two conjuncts identify the two
generators' destination sets; the third is the claimed equality. -/
theorem ant_one_slide_eq_queen (m : MoveGeneratorDebugger)
    (location : HexLocation) (q : Piece) (hc : m.grid.IsConnected)
    (hq : m.grid.peek location = [q]) (hnp : location ∉ m.pinned) :
    (m.queen_moves location =
      (((m.grid.remove location).2.slidable_locations location).filter
        (fun n => (m.grid.remove location).2.outsideB n)).map
        (fun n => ((m.grid.remove location).2).add q n)) ∧
    (m.ant_moves location =
      ((antDfs (m.grid.remove location).2 4096 location []).erase location).map
        (fun n => ((m.grid.remove location).2).add q n)) ∧
    (∀ n : HexLocation,
      (n ∈ (antDfs (m.grid.remove location).2 4096 location []).erase location ∧
        n ∈ ((m.grid.remove location).2.slidable_locations location).filter
          (fun sl => !((m.grid.remove location).2.get_neighbors sl).isEmpty)) ↔
      n ∈ ((m.grid.remove location).2.slidable_locations location).filter
        (fun n => (m.grid.remove location).2.outsideB n)) := by
  refine ⟨queen_moves_eq hq hnp, ant_moves_eq hq hnp, ?_⟩
  intro n
  constructor
  · rintro ⟨-, hone⟩
    rw [List.mem_filter] at hone ⊢
    obtain ⟨hsl, hcontact⟩ := hone
    refine ⟨hsl, ?_⟩
    rw [HexGrid.outsideB, slidable_unoccupied hsl]
    simpa using hcontact
  · intro hq2
    rw [List.mem_filter] at hq2
    obtain ⟨hsl, hout⟩ := hq2
    have hcontact :
        (!((m.grid.remove location).2.get_neighbors n).isEmpty) = true := by
      rw [HexGrid.outsideB, slidable_unoccupied hsl] at hout
      simpa using hout
    refine ⟨?_, ?_⟩
    · have hmem : n ∈
          ((m.grid.remove location).2.slidable_locations location).filter
            (fun sl => !((m.grid.remove location).2.get_neighbors sl).isEmpty) := by
        rw [List.mem_filter]
        exact ⟨hsl, hcontact⟩
      have h2 := antDfs_one_slide (m.grid.remove location).2
        (show 2 ≤ 4096 by omega) location n hmem
      rw [List.Nodup.mem_erase_iff (antDfs_nodup _ _ _ _ List.nodup_nil)]
      exact ⟨slidable_ne hsl, h2⟩
    · rw [List.mem_filter]
      exact ⟨hsl, hcontact⟩

/-- C7 witness: the ant/queen destination comparison instantiated on the
concrete connected board `gTwo`. -/
theorem ant_one_slide_eq_queen_witness :
    (mTwo.grid.IsConnected ∧ mTwo.grid.peek locO = [pS] ∧
      locO ∉ mTwo.pinned) ∧
    (mTwo.queen_moves locO =
      (((mTwo.grid.remove locO).2.slidable_locations locO).filter
        (fun n => (mTwo.grid.remove locO).2.outsideB n)).map
        (fun n => ((mTwo.grid.remove locO).2).add pS n)) ∧
    (mTwo.ant_moves locO =
      ((antDfs (mTwo.grid.remove locO).2 4096 locO []).erase locO).map
        (fun n => ((mTwo.grid.remove locO).2).add pS n)) ∧
    (∀ n : HexLocation,
      (n ∈ (antDfs (mTwo.grid.remove locO).2 4096 locO []).erase locO ∧
        n ∈ ((mTwo.grid.remove locO).2.slidable_locations locO).filter
          (fun sl => !((mTwo.grid.remove locO).2.get_neighbors sl).isEmpty)) ↔
      n ∈ ((mTwo.grid.remove locO).2.slidable_locations locO).filter
        (fun n => (mTwo.grid.remove locO).2.outsideB n)) := by
  have h := ant_one_slide_eq_queen mTwo locO pS gTwo_connected rfl
    (List.not_mem_nil locO)
  exact ⟨⟨gTwo_connected, rfl, List.not_mem_nil locO⟩, h.1, h.2.1, h.2.2⟩

/-- C8 (amended): for every in-range location, `remove` on an unoccupied
cell returns an explicit absent value and leaves the board unchanged, and
`peek` on an unoccupied cell returns the empty sequence.  The original
claim extends this to out-of-range cells, which is refuted by
`out_of_range_access_aborts`: the source indexes the 60 x 60 array after an
unchecked cast, so an out-of-range access aborts the program instead of
returning an absent value. -/
theorem empty_cell_access_in_range (g : HexGrid) (location : HexLocation)
    (hb : ∃ p, HexGrid.centralize location = some p)
    (he : g.peek location = []) :
    g.removeChecked location = some (none, g) ∧
      g.peekChecked location = some [] := by
  obtain ⟨⟨x, y⟩, hb⟩ := hb
  have hax : (g.grid y x).filterMap id = [] := by
    rw [← peek_eq_axial hb]
    exact he
  constructor
  · simp only [HexGrid.removeChecked, hb, removeLowest_of_empty hax]
    rw [setCell_eta]
  · simp only [HexGrid.peekChecked, hb, HexGrid.axial, hax]

/-- C8 counterexample: at the out-of-range location (40, 0) — index 70 of a
60-wide array — both `remove` and `peek` abort in the source (modelled by
`none`), instead of producing the absent value the claim promises for
every location. -/
theorem out_of_range_access_aborts :
    HexGrid.new.removeChecked ⟨40, 0⟩ = none ∧
      HexGrid.new.peekChecked ⟨40, 0⟩ = none :=
  ⟨rfl, rfl⟩

/-- C8 witness: empty-cell access at the in-range origin of the empty
board. -/
theorem empty_cell_access_witness :
    ((∃ p, HexGrid.centralize locO = some p) ∧ HexGrid.new.peek locO = []) ∧
      HexGrid.new.removeChecked locO = some (none, HexGrid.new) ∧
      HexGrid.new.peekChecked locO = some [] := by
  have h := empty_cell_access_in_range HexGrid.new locO ⟨(30, 30), rfl⟩ rfl
  exact ⟨⟨⟨(30, 30), rfl⟩, rfl⟩, h⟩

/-- C9: placing onto a stack already at `MAX_HEIGHT` is rejected without
corruption: `add` finds no free slot, the piece is not stored, and the grid
— in particular the existing stack — is returned unchanged (the condition
is detectable beforehand by `peek`, though `add` itself returns no error
signal). -/
theorem full_stack_add_noop (g : HexGrid) (location : HexLocation) (p : Piece)
    (hwf : GridWF g) (hfull : (g.peek location).length = MAX_HEIGHT) :
    g.addChecked p location = some g ∧ g.add p location = g := by
  cases hc : HexGrid.centralize location with
  | none =>
    exfalso
    rw [peek_out_of_range hc] at hfull
    simp [MAX_HEIGHT] at hfull
  | some v =>
    obtain ⟨x, y⟩ := v
    have hlen : ((g.grid y x).filterMap id).length = (g.grid y x).length := by
      rw [← peek_eq_axial hc, hfull, hwf y x]
    have hfill := fillFirstNone_of_full (full_of_peek_length hlen) p
    have h1 : g.addChecked p location = some g := by
      simp only [HexGrid.addChecked, hc, hfill]
      rw [setCell_eta]
    exact ⟨h1, by rw [HexGrid.add, h1]; rfl⟩

/-- C9 witness: adding an eighth piece to the full 7-stack `gFull` leaves
the grid unchanged. -/
theorem full_stack_add_noop_witness :
    (GridWF gFull ∧ (gFull.peek locO).length = MAX_HEIGHT) ∧
      gFull.addChecked pA locO = some gFull ∧ gFull.add pA locO = gFull := by
  have hwf : GridWF gFull :=
    GridWF.add (GridWF.add (GridWF.add (GridWF.add (GridWF.add (GridWF.add
      (GridWF.add GridWF.new pS locO) pA locO) pS locO) pA locO) pS locO)
      pA locO) pS locO
  have h := full_stack_add_noop gFull locO pA hwf rfl
  exact ⟨⟨hwf, rfl⟩, h⟩

/-- C10: `spider_dfs` marks the origin as visited before expanding, so the
origin is never an endpoint of the search (first conjunct; by
`spider_dfs_mem` every contributing path also avoids the origin at every
intermediate cell), and consequently `spider_moves` never returns a board
equal to its input: the returned board is empty at the spider's origin
while the input holds the spider there. -/
theorem spider_never_returns_input (m : MoveGeneratorDebugger)
    (location : HexLocation) (s : Piece) (hs : m.grid.peek location = [s])
    (hnp : location ∉ m.pinned) :
    (∀ x ∈ spider_dfs (m.grid.remove location).2 location [] 3, x ≠ location) ∧
    (∀ b ∈ m.spider_moves location, b ≠ m.grid) := by
  constructor
  · intro x hx
    obtain ⟨n1, -, -, n2, -, -, -, -, hxl, -, -⟩ := (spider_dfs_mem _ _ _).1 hx
    exact hxl
  · intro b hb
    rw [spider_moves_mem hs hnp] at hb
    obtain ⟨x, hpath, rfl⟩ := hb
    obtain ⟨n1, -, -, n2, -, -, -, -, hxl, -, -⟩ := hpath
    intro hcontra
    have h1 : (((m.grid.remove location).2).add s x).peek location = [] := by
      rw [peek_add_other (Ne.symm hxl), peek_remove_self, hs]
      rfl
    rw [hcontra, hs] at h1
    cases h1

/-- C10 witness: the origin-exclusion property instantiated on the concrete
board `gTwo`. -/
theorem spider_never_returns_input_witness :
    (mTwo.grid.peek locO = [pS] ∧ locO ∉ mTwo.pinned) ∧
    (∀ x ∈ spider_dfs (mTwo.grid.remove locO).2 locO [] 3, x ≠ locO) ∧
    (∀ b ∈ mTwo.spider_moves locO, b ≠ mTwo.grid) := by
  have h := spider_never_returns_input mTwo locO pS rfl (List.not_mem_nil locO)
  exact ⟨⟨rfl, List.not_mem_nil locO⟩, h.1, h.2⟩
